import Mathlib

/-!
# Verification of the `.eng` archive container (engram-rs)

A shallow embedding of the archive reader/writer of `src/archive/` into Lean 4:

* bytes are `Nat` values (each `< 256` in every file the writer produces);
* machine integers are `Nat` with an explicit `% 2^w` at every point where the
  Rust code performs a narrowing cast (`as u32`); `usize → u64` casts on a
  64-bit target are value-preserving and are modelled as the identity, with
  the width enforced at serialization time (`leBytes`);
* the backing file is a `List Nat`; `seek` + `read_exact` become `List.drop` +
  a length-checked `List.take`;
* fallible operations return `Except Err`, where `Err` mirrors the
  `EngramError` variants used by the archive module (payload strings and
  values of the Rust variants are elided: only the error kind is relevant);
* the external primitives (crc32fast, lz4_flex, zstd, AES-256-GCM) are
  parameters collected in a `Prims` record; theorems assume only the
  contracts the code relies on (determinism, codec round-trips, AEAD
  correctness/authenticity, u32-valued CRC).
-/

namespace Engram

/-! ## Little-endian serialization of unsigned integers -/

/-- `k`-byte little-endian serialization of `n` (i.e. `n.to_le_bytes()` for the
`k`-byte unsigned integer type; the value stored is `n % 256^k`). -/
def leBytes : Nat → Nat → List Nat
  | 0, _ => []
  | k + 1, n => n % 256 :: leBytes k (n / 256)

/-- Little-endian value of a byte list (`from_le_bytes`). -/
def leVal : List Nat → Nat
  | [] => 0
  | b :: bs => b + 256 * leVal bs

/-! ## Error kinds

Mirrors the `EngramError` variants reachable from `src/archive/`.  The string
and numeric payloads of the Rust variants are elided: the constructor alone
identifies the error kind.  The spec's taxonomy name `InvalidStructure`
corresponds to the source variant `InvalidFormat`. -/

inductive Err where
  | invalidFormat
  | invalidMagic
  | unsupportedVersion
  | fileNotFound
  | invalidCompression
  | compressionFailed
  | decompressionFailed
  | crcMismatch
  | pathError
  | missingDecryptionKey
  | decryptionFailed
  | encryptionFailed
  | invalidEncryptionMode
  | ioFail
  deriving DecidableEq, Repr

/-! ## Compression methods and encryption modes (`format.rs`) -/

inductive CompressionMethod where
  | none
  | lz4
  | zstd
  deriving DecidableEq, Repr

/-- `CompressionMethod as u8`. -/
def CompressionMethod.toU8 : CompressionMethod → Nat
  | .none => 0
  | .lz4 => 1
  | .zstd => 2

/-- `CompressionMethod::from_u8`. -/
def CompressionMethod.fromU8 (value : Nat) : Except Err CompressionMethod :=
  match value with
  | 0 => .ok .none
  | 1 => .ok .lz4
  | 2 => .ok .zstd
  | _ => .error .invalidCompression

inductive EncryptionMode where
  | none
  | archive
  | perFile
  deriving DecidableEq, Repr

/-- `EncryptionMode::from_flags` (low two bits; reserved `0b11` maps to None). -/
def EncryptionMode.fromFlags (flags : Nat) : EncryptionMode :=
  match flags % 4 with
  | 0 => .none
  | 1 => .archive
  | 2 => .perFile
  | _ => .none

/-- `EncryptionMode::to_flags`. -/
def EncryptionMode.toFlags : EncryptionMode → Nat
  | .none => 0
  | .archive => 1
  | .perFile => 2

/-! ## Byte-stream parsers

`seek`+`read_exact` style access to a `List Nat` of file bytes.  A parser
consumes a prefix of the stream; `read_exact` on a too-short stream is an
I/O error (`Err.ioFail`), as in Rust. -/

def Parser (α : Type) : Type := List Nat → Except Err (α × List Nat)

/-- Sequencing of parsers. -/
def pthen {α β : Type} (p : Parser α) (f : α → Parser β) : Parser β := fun s =>
  match p s with
  | .ok (a, s1) => f a s1
  | .error e => .error e

def ppure {α : Type} (a : α) : Parser α := fun s => .ok (a, s)

def pfail {α : Type} (e : Err) : Parser α := fun _ => .error e

/-- Run a stream-independent fallible computation inside a parser (used for
`CompressionMethod::from_u8` and `String::from_utf8` results). -/
def pLift {α : Type} (x : Except Err α) : Parser α := fun s => x.map fun a => (a, s)

/-- `read_exact` into a `k`-byte buffer. -/
def pBytes (k : Nat) : Parser (List Nat) := fun s =>
  if k ≤ s.length then .ok (s.take k, s.drop k) else .error .ioFail

/-- Read a little-endian `u16`. -/
def pU16 : Parser Nat := pthen (pBytes 2) fun bs => ppure (leVal bs)

/-- Read a little-endian `u32`. -/
def pU32 : Parser Nat := pthen (pBytes 4) fun bs => ppure (leVal bs)

/-- Read a little-endian `u64`. -/
def pU64 : Parser Nat := pthen (pBytes 8) fun bs => ppure (leVal bs)

/-- Succeed iff the condition holds, failing with `e` otherwise. -/
def pGuard (c : Prop) [Decidable c] (e : Err) : Parser Unit := fun s =>
  if c then .ok ((), s) else .error e

/-! ## UTF-8 validity

Model of the validity check performed by Rust's `String::from_utf8`.  A Rust
`String` is modelled as the list of its UTF-8 bytes, so `from_utf8` is the
identity on valid byte lists and an error otherwise.  The check uses
explicit fuel for termination; fuel equal to the list length always
suffices since every step consumes at least one byte. -/

def isCont (b : Nat) : Bool := decide (128 ≤ b ∧ b ≤ 191)

def validUtf8Fuel : Nat → List Nat → Bool
  | _, [] => true
  | 0, _ :: _ => false
  | fuel + 1, b :: rest =>
    if b ≤ 127 then validUtf8Fuel fuel rest
    else if b < 194 then false
    else if b ≤ 223 then
      match rest with
      | c1 :: r => isCont c1 && validUtf8Fuel fuel r
      | [] => false
    else if b ≤ 239 then
      match rest with
      | c1 :: c2 :: r =>
        (if b = 224 then decide (160 ≤ c1 ∧ c1 ≤ 191)
         else if b = 237 then decide (128 ≤ c1 ∧ c1 ≤ 159)
         else isCont c1) && isCont c2 && validUtf8Fuel fuel r
      | _ => false
    else if b ≤ 244 then
      match rest with
      | c1 :: c2 :: c3 :: r =>
        (if b = 240 then decide (144 ≤ c1 ∧ c1 ≤ 191)
         else if b = 244 then decide (128 ≤ c1 ∧ c1 ≤ 143)
         else isCont c1) && isCont c2 && isCont c3 && validUtf8Fuel fuel r
      | _ => false
    else false

def isValidUtf8 (l : List Nat) : Bool := validUtf8Fuel l.length l

/-- `String::from_utf8` on a byte list: identity on valid UTF-8, error
otherwise (the call sites map the failure to `EngramError::PathError`). -/
def parseUtf8 (bs : List Nat) : Except Err (List Nat) :=
  if isValidUtf8 bs then .ok bs else .error .pathError

/-! ## Binary format records (`format.rs`, `local_entry.rs`, `end_record.rs`) -/

/-- Magic number `0x89 'E' 'N' 'G' 0x0D 0x0A 0x1A 0x0A`. -/
def MAGIC_NUMBER : List Nat := [0x89, 0x45, 0x4E, 0x47, 0x0D, 0x0A, 0x1A, 0x0A]

def FORMAT_VERSION_MAJOR : Nat := 1

def FORMAT_VERSION_MINOR : Nat := 0

def HEADER_SIZE : Nat := 64

def CD_ENTRY_SIZE : Nat := 320

def MAX_PATH_LENGTH : Nat := 255

def END_RECORD_SIZE : Nat := 64

/-- "CENT" signature. -/
def CENT_SIGNATURE : List Nat := [0x43, 0x45, 0x4E, 0x54]

/-- "LOCA" signature. -/
def LOCAL_ENTRY_SIGNATURE : List Nat := [0x4C, 0x4F, 0x43, 0x41]

/-- "ENDR" signature. -/
def END_RECORD_SIGNATURE : List Nat := [0x45, 0x4E, 0x44, 0x52]

/-- `FileHeader` (64 bytes at offset 0). -/
structure FileHeader where
  version_major : Nat
  version_minor : Nat
  header_crc : Nat
  central_directory_offset : Nat
  central_directory_size : Nat
  entry_count : Nat
  content_version : Nat
  flags : Nat
  deriving DecidableEq, Repr

/-- `FileHeader::new()`. -/
def FileHeader.new : FileHeader :=
  { version_major := FORMAT_VERSION_MAJOR
    version_minor := FORMAT_VERSION_MINOR
    header_crc := 0
    central_directory_offset := 0
    central_directory_size := 0
    entry_count := 0
    content_version := 0
    flags := 0 }

/-- `FileHeader::set_encryption_mode`. -/
def FileHeader.setEncryptionMode (h : FileHeader) (mode : EncryptionMode) : FileHeader :=
  { h with flags := (h.flags / 4) * 4 + mode.toFlags }

/-- `FileHeader::encryption_mode`. -/
def FileHeader.encryptionMode (h : FileHeader) : EncryptionMode :=
  EncryptionMode.fromFlags h.flags

/-- `FileHeader::write_to` (always exactly 64 bytes). -/
def FileHeader.writeTo (h : FileHeader) : List Nat :=
  MAGIC_NUMBER ++ leBytes 2 h.version_major ++ leBytes 2 h.version_minor ++
    leBytes 4 h.header_crc ++ leBytes 8 h.central_directory_offset ++
    leBytes 8 h.central_directory_size ++ leBytes 4 h.entry_count ++
    leBytes 4 h.content_version ++ leBytes 4 h.flags ++ List.replicate 20 0

/-- `FileHeader::read_from`. -/
def FileHeader.readFrom : Parser FileHeader :=
  pthen (pBytes 8) fun magic =>
  pthen (pGuard (magic = MAGIC_NUMBER) .invalidMagic) fun _ =>
  pthen pU16 fun vmaj =>
  pthen pU16 fun vmin =>
  pthen pU32 fun hcrc =>
  pthen pU64 fun cdo =>
  pthen pU64 fun cds =>
  pthen pU32 fun cnt =>
  pthen pU32 fun cv =>
  pthen (if vmaj ≥ 1 ∨ vmin ≥ 4 then pU32
         else pthen (pBytes 4) fun _ => ppure 0) fun flags =>
  pthen (pBytes 20) fun _ =>
  ppure
    { version_major := vmaj, version_minor := vmin, header_crc := hcrc
      central_directory_offset := cdo, central_directory_size := cds
      entry_count := cnt, content_version := cv, flags := flags }

/-- `FileHeader::validate_version`. -/
def FileHeader.validateVersion (h : FileHeader) : Except Err Unit :=
  if h.version_major > FORMAT_VERSION_MAJOR then .error .unsupportedVersion
  else .ok ()

/-- Central-directory entry metadata (`EntryInfo`). -/
structure EntryInfo where
  path : List Nat
  data_offset : Nat
  uncompressed_size : Nat
  compressed_size : Nat
  crc32 : Nat
  modified_time : Nat
  compression : CompressionMethod
  flags : Nat
  deriving DecidableEq, Repr

/-- `EntryInfo::write_to` (exactly 320 bytes on success; fails with
`PathError` when the path exceeds 255 bytes). -/
def EntryInfo.writeTo (e : EntryInfo) : Except Err (List Nat) :=
  if e.path.length > MAX_PATH_LENGTH then .error .pathError
  else .ok
    (CENT_SIGNATURE ++ leBytes 8 e.data_offset ++ leBytes 8 e.uncompressed_size ++
      leBytes 8 e.compressed_size ++ leBytes 4 e.crc32 ++ leBytes 8 e.modified_time ++
      [e.compression.toU8] ++ [e.flags % 256] ++ leBytes 2 e.path.length ++
      (e.path ++ List.replicate (256 - e.path.length) 0) ++ List.replicate 20 0)

/-- `EntryInfo::read_from`. -/
def EntryInfo.readFrom : Parser EntryInfo :=
  pthen (pBytes 4) fun sig =>
  pthen (pGuard (sig = CENT_SIGNATURE) .invalidFormat) fun _ =>
  pthen pU64 fun dataOffset =>
  pthen pU64 fun usize =>
  pthen pU64 fun csize =>
  pthen pU32 fun crc =>
  pthen pU64 fun mtime =>
  pthen (pBytes 1) fun compByte =>
  pthen (pLift (CompressionMethod.fromU8 (leVal compByte))) fun comp =>
  pthen (pBytes 1) fun flagsByte =>
  pthen pU16 fun pathLen =>
  pthen (pBytes 256) fun pathBuf =>
  pthen (pLift (parseUtf8 (pathBuf.take pathLen))) fun path =>
  pthen (pBytes 20) fun _ =>
  ppure
    { path := path, data_offset := dataOffset, uncompressed_size := usize
      compressed_size := csize, crc32 := crc, modified_time := mtime
      compression := comp, flags := leVal flagsByte }

/-- Local file entry header (`LocalEntryHeader`). -/
structure LocalEntryHeader where
  uncompressed_size : Nat
  compressed_size : Nat
  crc32 : Nat
  modified_time : Nat
  compression : CompressionMethod
  flags : Nat
  path : List Nat
  deriving DecidableEq, Repr

/-- `LocalEntryHeader::new`. -/
def LocalEntryHeader.new (usize csize crc mtime : Nat) (comp : CompressionMethod)
    (path : List Nat) : LocalEntryHeader :=
  { uncompressed_size := usize, compressed_size := csize, crc32 := crc
    modified_time := mtime, compression := comp, flags := 0, path := path }

/-- `LocalEntryHeader::write_to`; fails with `PathError` when the path
exceeds `u16::MAX` bytes.  Returns the written bytes (whose length is the
returned byte count of the Rust function). -/
def LocalEntryHeader.writeTo (h : LocalEntryHeader) : Except Err (List Nat) :=
  if h.path.length > 65535 then .error .pathError
  else .ok
    (LOCAL_ENTRY_SIGNATURE ++ leBytes 8 h.uncompressed_size ++
      leBytes 8 h.compressed_size ++ leBytes 4 h.crc32 ++
      leBytes 8 h.modified_time ++ [h.compression.toU8] ++ [h.flags % 256] ++
      leBytes 2 h.path.length ++ List.replicate 4 0 ++ h.path ++ [0])

/-- `LocalEntryHeader::read_from`. -/
def LocalEntryHeader.readFrom : Parser LocalEntryHeader :=
  pthen (pBytes 4) fun sig =>
  pthen (pGuard (sig = LOCAL_ENTRY_SIGNATURE) .invalidFormat) fun _ =>
  pthen pU64 fun usize =>
  pthen pU64 fun csize =>
  pthen pU32 fun crc =>
  pthen pU64 fun mtime =>
  pthen (pBytes 1) fun compByte =>
  pthen (pLift (CompressionMethod.fromU8 (leVal compByte))) fun comp =>
  pthen (pBytes 1) fun flagsByte =>
  pthen pU16 fun pathLen =>
  pthen (pBytes 4) fun _ =>
  pthen (pBytes pathLen) fun pathBytes =>
  pthen (pLift (parseUtf8 pathBytes)) fun path =>
  pthen (pBytes 1) fun nullTerm =>
  pthen (pGuard (nullTerm = [0]) .invalidFormat) fun _ =>
  ppure
    { uncompressed_size := usize, compressed_size := csize, crc32 := crc
      modified_time := mtime, compression := comp, flags := leVal flagsByte
      path := path }

/-- `LocalEntryHeader::header_size`. -/
def LocalEntryHeader.headerSize (h : LocalEntryHeader) : Nat :=
  4 + 8 + 8 + 4 + 8 + 1 + 1 + 2 + 4 + h.path.length + 1

/-- End record (`EndRecord`, last 64 bytes of the file). -/
structure EndRecord where
  version_major : Nat
  version_minor : Nat
  central_directory_offset : Nat
  central_directory_size : Nat
  entry_count : Nat
  archive_crc32 : Nat
  deriving DecidableEq, Repr

/-- `EndRecord::new`. -/
def EndRecord.new (vmaj vmin cdo cds cnt acrc : Nat) : EndRecord :=
  { version_major := vmaj, version_minor := vmin
    central_directory_offset := cdo, central_directory_size := cds
    entry_count := cnt, archive_crc32 := acrc }

/-- `EndRecord::write_to` (always exactly 64 bytes). -/
def EndRecord.writeTo (e : EndRecord) : List Nat :=
  END_RECORD_SIGNATURE ++ leBytes 2 e.version_major ++ leBytes 2 e.version_minor ++
    leBytes 8 e.central_directory_offset ++ leBytes 8 e.central_directory_size ++
    leBytes 4 e.entry_count ++ leBytes 4 e.archive_crc32 ++ List.replicate 32 0

/-- `EndRecord::read_from`. -/
def EndRecord.readFrom : Parser EndRecord :=
  pthen (pBytes 4) fun sig =>
  pthen (pGuard (sig = END_RECORD_SIGNATURE) .invalidFormat) fun _ =>
  pthen pU16 fun vmaj =>
  pthen pU16 fun vmin =>
  pthen pU64 fun cdo =>
  pthen pU64 fun cds =>
  pthen pU32 fun cnt =>
  pthen pU32 fun acrc =>
  pthen (pBytes 32) fun _ =>
  ppure
    { version_major := vmaj, version_minor := vmin
      central_directory_offset := cdo, central_directory_size := cds
      entry_count := cnt, archive_crc32 := acrc }

/-- `EndRecord::validate_against_header`. -/
def EndRecord.validateAgainstHeader (e : EndRecord) (hvmaj hvmin hcdo hcds hcnt : Nat) :
    Except Err Unit :=
  if e.version_major ≠ hvmaj ∨ e.version_minor ≠ hvmin then .error .invalidFormat
  else if e.central_directory_offset ≠ hcdo then .error .invalidFormat
  else if e.central_directory_size ≠ hcds then .error .invalidFormat
  else if e.entry_count ≠ hcnt then .error .invalidFormat
  else .ok ()

/-! ## External primitives

The archive module links against crc32fast, lz4_flex, zstd and AES-256-GCM.
These are external crates, so they enter the embedding as parameters; the
theorems assume only the contracts the archive code relies on (stated as
hypotheses of the individual theorems).  Keys are abstract values. -/

structure Prims where
  /-- `crc32fast::hash` (returns a `u32`). -/
  crc32 : List Nat → Nat
  /-- `lz4_flex::compress_prepend_size`. -/
  lz4Comp : List Nat → List Nat
  /-- `lz4_flex::decompress_size_prepended` (`None` = codec error). -/
  lz4Decomp : List Nat → Option (List Nat)
  /-- `zstd::encode_all` at level 6 (encoder failure is not modelled: the
  claims under study never exercise it). -/
  zstdComp : List Nat → List Nat
  /-- `zstd::decode_all` (`None` = codec error). -/
  zstdDecomp : List Nat → Option (List Nat)
  /-- AES-256-GCM `encrypt`: key → 12-byte nonce → plaintext → ciphertext‖tag. -/
  aeadEnc : Nat → List Nat → List Nat → List Nat
  /-- AES-256-GCM `decrypt`: key → nonce → ciphertext‖tag → plaintext
  (`None` = tag mismatch). -/
  aeadDec : Nat → List Nat → List Nat → Option (List Nat)

/-! ## Frame compression (`frame_compression.rs`) -/

def FRAME_SIZE : Nat := 65536

def MIN_FRAME_COMPRESSION_SIZE : Nat := 52428800

/-- `should_use_frames`. -/
def shouldUseFrames (size : Nat) : Bool := size ≥ MIN_FRAME_COMPRESSION_SIZE

/-- Per-frame compression dispatch (the `match method` inside the loop of
`compress_frames`). -/
def frameComp (P : Prims) (m : CompressionMethod) (d : List Nat) : Except Err (List Nat) :=
  match m with
  | .lz4 => .ok (P.lz4Comp d)
  | .zstd => .ok (P.zstdComp d)
  | .none => .error .invalidFormat

/-- Per-frame decompression dispatch of `decompress_frames`. -/
def frameDecomp (P : Prims) (m : CompressionMethod) (d : List Nat) : Except Err (List Nat) :=
  match m with
  | .lz4 =>
    match P.lz4Decomp d with
    | some x => .ok x
    | none => .error .decompressionFailed
  | .zstd =>
    match P.zstdDecomp d with
    | some x => .ok x
    | none => .error .decompressionFailed
  | .none => .error .invalidFormat

/-- The frame loop of `compress_frames`: frames `idx, idx+1, …, idx+k-1`,
each taking `data[idx*FRAME_SIZE .. min((idx+1)*FRAME_SIZE, len)]`, emitted
as `frame_size:u32_le ‖ frame_bytes` in order. -/
def compressFramesAux (P : Prims) (m : CompressionMethod) (data : List Nat) :
    Nat → Nat → Except Err (List Nat)
  | _, 0 => .ok []
  | idx, k + 1 =>
    match frameComp P m ((data.drop (idx * FRAME_SIZE)).take FRAME_SIZE) with
    | .error e => .error e
    | .ok cf =>
      match compressFramesAux P m data (idx + 1) k with
      | .error e => .error e
      | .ok rest => .ok (leBytes 4 (cf.length % 2 ^ 32) ++ cf ++ rest)

/-- `compress_frames`. -/
def compressFrames (P : Prims) (data : List Nat) (m : CompressionMethod) :
    Except Err (List Nat) :=
  if data.length < MIN_FRAME_COMPRESSION_SIZE then .error .invalidFormat
  else
    match compressFramesAux P m data 0 ((data.length + (FRAME_SIZE - 1)) / FRAME_SIZE) with
    | .error e => .error e
    | .ok body =>
      .ok (leBytes 4 (((data.length + (FRAME_SIZE - 1)) / FRAME_SIZE) % 2 ^ 32) ++ body)

/-- The frame loop of `decompress_frames`, as a parser over the payload. -/
def decompressFramesAux (P : Prims) (m : CompressionMethod) : Nat → Parser (List Nat)
  | 0 => ppure []
  | k + 1 =>
    pthen pU32 fun fsize =>
    pthen (pBytes fsize) fun fdata =>
    pthen (pLift (frameDecomp P m fdata)) fun dec =>
    pthen (decompressFramesAux P m k) fun rest =>
    ppure (dec ++ rest)

/-- `decompress_frames`. -/
def decompressFrames (P : Prims) (data : List Nat) (m : CompressionMethod)
    (expectedSize : Nat) : Except Err (List Nat) :=
  match (pthen pU32 fun cnt => decompressFramesAux P m cnt) data with
  | .error e => .error e
  | .ok (out, _) =>
    if out.length ≠ expectedSize then .error .decompressionFailed else .ok out

/-! ## Writer (`writer.rs`) -/

def MIN_COMPRESSION_SIZE : Nat := 4096

/-- `normalize_path` (`path.replace('\\', "/")`).  The byte `0x5C` occurs in
valid UTF-8 only as the character `\`, so the byte-level map coincides with
the character-level replacement. -/
def normalizePath (p : List Nat) : List Nat :=
  p.map fun b => if b = 92 then 47 else b

/-- ASCII lowercasing of one byte; models `str::to_lowercase` on the
extension.  (The two agree whenever the comparison against the ASCII
extension literals below can succeed: no character outside ASCII lowercases
onto any letter occurring in those literals.) -/
def lowerByte (b : Nat) : Nat := if 65 ≤ b ∧ b ≤ 90 then b + 32 else b

/-- `path.rsplit('.').next().unwrap_or("").to_lowercase()`: the (lowercased)
segment after the last `.`, or the whole path when there is no dot. -/
def extLower (p : List Nat) : List Nat :=
  ((p.reverse.takeWhile fun b => b ≠ 46).reverse).map lowerByte

/-- `ArchiveWriter::select_compression`. -/
def selectCompression (path : List Nat) (size : Nat) : CompressionMethod :=
  if size < MIN_COMPRESSION_SIZE then .none
  else
    let ext := extLower path
    if ext ∈ [[106, 112, 103], [106, 112, 101, 103], [112, 110, 103], [103, 105, 102],
        [119, 101, 98, 112], [109, 112, 51], [109, 112, 52], [122, 105, 112],
        [103, 122], [98, 122, 50]] then
      .none
    else if ext ∈ [[106, 115, 111, 110], [116, 120, 116], [120, 109, 108],
        [104, 116, 109, 108], [99, 115, 115], [106, 115], [116, 115], [109, 100],
        [99, 115, 118]] then
      .zstd
    else if ext ∈ [[100, 98], [115, 113, 108, 105, 116, 101],
        [115, 113, 108, 105, 116, 101, 51]] then
      .zstd
    else .lz4

/-- `ArchiveWriter::compress_data`. -/
def compressData (P : Prims) (data : List Nat) (compression : CompressionMethod) :
    Except Err (List Nat × CompressionMethod) :=
  if shouldUseFrames data.length then
    match compression with
    | .none => .ok (data, .none)
    | .lz4 =>
      match compressFrames P data .lz4 with
      | .error e => .error e
      | .ok compressed => .ok (compressed, .lz4)
    | .zstd =>
      match compressFrames P data .zstd with
      | .error e => .error e
      | .ok compressed => .ok (compressed, .zstd)
  else
    match compression with
    | .none => .ok (data, .none)
    | .lz4 =>
      let compressed := P.lz4Comp data
      .ok (if compressed.length < data.length then (compressed, .lz4) else (data, .none))
    | .zstd =>
      let compressed := P.zstdComp data
      .ok (if compressed.length < data.length then (compressed, .zstd) else (data, .none))

/-- `ArchiveWriter::encrypt_file_data`: `[nonce 12][ciphertext‖tag]`. -/
def encryptFileData (P : Prims) (key : Option Nat) (nonce data : List Nat) :
    Except Err (List Nat) :=
  match key with
  | none => .error .invalidEncryptionMode
  | some k => .ok (nonce ++ P.aeadEnc k nonce data)

/-- `ArchiveWriter` state.  `body` holds the bytes written after the 64-byte
placeholder header, so `current_offset = 64 + body.length`. -/
structure WriterState where
  body : List Nat
  entries : List EntryInfo
  encryption_mode : EncryptionMode
  encryption_key : Option Nat
  deriving DecidableEq, Repr

/-- `ArchiveWriter::create` (the placeholder header is accounted for in
`finalizeArchive`). -/
def WriterState.create : WriterState :=
  { body := [], entries := [], encryption_mode := .none, encryption_key := none }

/-- `ArchiveWriter::with_archive_encryption`. -/
def WriterState.withArchiveEncryption (st : WriterState) (k : Nat) : WriterState :=
  { st with encryption_mode := .archive, encryption_key := some k }

/-- `ArchiveWriter::with_per_file_encryption`. -/
def WriterState.withPerFileEncryption (st : WriterState) (k : Nat) : WriterState :=
  { st with encryption_mode := .perFile, encryption_key := some k }

/-- `ArchiveWriter::add_file_with_compression`.  `mtime` models the
`SystemTime::now()` call, `nonce` the fresh random per-entry nonce. -/
def addFileWithCompression (P : Prims) (st : WriterState) (path data : List Nat)
    (compression : CompressionMethod) (mtime : Nat) (nonce : List Nat) :
    Except Err WriterState :=
  let normalized := normalizePath path
  match compressData P data compression with
  | .error e => .error e
  | .ok (compressedData, actual) =>
    match (if st.encryption_mode = .perFile then
        encryptFileData P st.encryption_key nonce compressedData
      else .ok compressedData) with
    | .error e => .error e
    | .ok finalPayload =>
      let crc := P.crc32 data
      let entryStartOffset := 64 + st.body.length
      match (LocalEntryHeader.new data.length finalPayload.length crc mtime actual
          normalized).writeTo with
      | .error e => .error e
      | .ok headerBytes =>
        .ok { st with
          body := st.body ++ headerBytes ++ finalPayload
          entries := st.entries ++
            [{ path := normalized, data_offset := entryStartOffset
               uncompressed_size := data.length, compressed_size := finalPayload.length
               crc32 := crc, modified_time := mtime, compression := actual, flags := 0 }] }

/-- `ArchiveWriter::add_file` (automatic compression selection). -/
def addFile (P : Prims) (st : WriterState) (path data : List Nat) (mtime : Nat)
    (nonce : List Nat) : Except Err WriterState :=
  addFileWithCompression P st path data (selectCompression path data.length) mtime nonce

/-- One queued `add_file_with_compression` request. -/
structure AddReq where
  path : List Nat
  data : List Nat
  compression : CompressionMethod
  mtime : Nat
  nonce : List Nat
  deriving DecidableEq, Repr

/-- Run a sequence of `add_file_with_compression` calls. -/
def runAdds (P : Prims) (st : WriterState) : List AddReq → Except Err WriterState
  | [] => .ok st
  | a :: rest =>
    match addFileWithCompression P st a.path a.data a.compression a.mtime a.nonce with
    | .error e => .error e
    | .ok st1 => runAdds P st1 rest

/-- The central-directory emission loop of `finalize`. -/
def writeCentralDirectory : List EntryInfo → Except Err (List Nat)
  | [] => .ok []
  | e :: rest =>
    match e.writeTo with
    | .error er => .error er
    | .ok bs =>
      match writeCentralDirectory rest with
      | .error er => .error er
      | .ok rbs => .ok (bs ++ rbs)

/-- `ArchiveWriter::finalize`, returning the final file bytes.
`archiveNonce` models the fresh random nonce of archive-level encryption. -/
def finalizeArchive (P : Prims) (st : WriterState) (archiveNonce : List Nat) :
    Except Err (List Nat) :=
  let cdOffset := 64 + st.body.length
  match writeCentralDirectory st.entries with
  | .error e => .error e
  | .ok cdBytes =>
    -- current_offset is not advanced while the CD records are written, so the
    -- source expression current_offset - cd_offset + n*320 equals n*320
    let cdSize := (64 + st.body.length) - cdOffset + st.entries.length * 320
    let preFile := FileHeader.new.writeTo ++ st.body ++ cdBytes
    match (if st.encryption_mode = .archive then
        match st.encryption_key with
        | none => .error .invalidEncryptionMode
        | some k =>
          .ok (preFile.take 64 ++ archiveNonce ++ P.aeadEnc k archiveNonce (preFile.drop 64))
      else .ok preFile : Except Err (List Nat)) with
    | .error e => .error e
    | .ok fileAfterEnc =>
      let hdr := FileHeader.setEncryptionMode
        { FileHeader.new with
          central_directory_offset := cdOffset
          central_directory_size := cdSize
          entry_count := st.entries.length % 2 ^ 32 }
        st.encryption_mode
      let endr := EndRecord.new FORMAT_VERSION_MAJOR FORMAT_VERSION_MINOR cdOffset cdSize
        (st.entries.length % 2 ^ 32) 0
      .ok (hdr.writeTo ++ fileAfterEnc.drop 64 ++ endr.writeTo)

/-! ## Reader (`reader.rs`) -/

/-- Lookup in the reader's `HashMap<String, EntryInfo>` built by inserting
the central-directory records in order: a later insert with the same path
overwrites an earlier one, so lookup returns the last matching record. -/
def cdLookup (entries : List EntryInfo) (p : List Nat) : Option EntryInfo :=
  (entries.filter fun e => e.path = p).getLast?

/-- Size of that `HashMap`: the number of distinct paths among the records. -/
def distinctPathCount (entries : List EntryInfo) : Nat :=
  (entries.map EntryInfo.path).dedup.length

/-- `ArchiveReader` state.  `entries` keeps the central-directory records in
insertion order; the map view is `cdLookup`/`distinctPathCount`. -/
structure ReaderState where
  file : List Nat
  header : FileHeader
  entries : List EntryInfo
  entry_list : List (List Nat)
  encryption_mode : EncryptionMode
  decryption_key : Option Nat
  decrypted_payload : Option (List Nat)
  deriving DecidableEq, Repr

/-- `ArchiveReader::open`. -/
def ArchiveReader.open (file : List Nat) : Except Err ReaderState :=
  match FileHeader.readFrom file with
  | .error e => .error e
  | .ok (header, _) =>
    match header.validateVersion with
    | .error e => .error e
    | .ok _ =>
      .ok { file := file, header := header, entries := [], entry_list := []
            encryption_mode := header.encryptionMode, decryption_key := none
            decrypted_payload := none }

/-- `ArchiveReader::with_decryption_key`. -/
def ReaderState.withDecryptionKey (rd : ReaderState) (k : Nat) : ReaderState :=
  { rd with decryption_key := some k }

/-- `ArchiveReader::validate_end_record`. -/
def validateEndRecord (rd : ReaderState) : Except Err Unit :=
  let fileSize := rd.file.length
  if fileSize < END_RECORD_SIZE then .error .invalidFormat
  else
    match EndRecord.readFrom (rd.file.drop (fileSize - END_RECORD_SIZE)) with
    | .error e => .error e
    | .ok (endr, _) =>
      endr.validateAgainstHeader rd.header.version_major rd.header.version_minor
        rd.header.central_directory_offset rd.header.central_directory_size
        rd.header.entry_count

/-- The `for _ in 0..entry_count` loop of the central-directory readers. -/
def readCDRecords : Nat → Parser (List EntryInfo)
  | 0 => ppure []
  | n + 1 =>
    pthen EntryInfo.readFrom fun e =>
    pthen (readCDRecords n) fun rest =>
    ppure (e :: rest)

/-- `ArchiveReader::read_central_directory_from_file`. -/
def readCentralDirectoryFromFile (rd : ReaderState) : Except Err ReaderState :=
  match readCDRecords rd.header.entry_count
      (rd.file.drop rd.header.central_directory_offset) with
  | .error e => .error e
  | .ok (es, _) =>
    .ok { rd with entries := es, entry_list := es.map EntryInfo.path }

/-- `ArchiveReader::read_central_directory_from_memory` (archive-mode: the
decrypted payload starts at what would be byte 64 of the file). -/
def readCentralDirectoryFromMemory (rd : ReaderState) : Except Err ReaderState :=
  match rd.decrypted_payload with
  | none => .error .decryptionFailed
  | some payload =>
    match readCDRecords rd.header.entry_count
        (payload.drop (rd.header.central_directory_offset - 64)) with
    | .error e => .error e
    | .ok (es, _) =>
      .ok { rd with entries := es, entry_list := es.map EntryInfo.path }

/-- `ArchiveReader::decrypt_archive_payload`. -/
def decryptArchivePayload (P : Prims) (rd : ReaderState) : Except Err ReaderState :=
  match rd.decryption_key with
  | none => .error .missingDecryptionKey
  | some k =>
    let encryptedSize := rd.file.length - 64 - END_RECORD_SIZE
    match (pthen (pBytes 12) fun nonce =>
        pthen (pBytes (encryptedSize - 12)) fun ct =>
        ppure (nonce, ct)) (rd.file.drop 64) with
    | .error e => .error e
    | .ok ((nonce, ct), _) =>
      match P.aeadDec k nonce ct with
      | none => .error .decryptionFailed
      | some plaintext => .ok { rd with decrypted_payload := some plaintext }

/-- `ArchiveReader::initialize`. -/
def initReader (P : Prims) (rd : ReaderState) : Except Err ReaderState :=
  match rd.encryption_mode with
  | .none =>
    match validateEndRecord rd with
    | .error e => .error e
    | .ok _ => readCentralDirectoryFromFile rd
  | .archive =>
    match decryptArchivePayload P rd with
    | .error e => .error e
    | .ok rd1 => readCentralDirectoryFromMemory rd1
  | .perFile =>
    match validateEndRecord rd with
    | .error e => .error e
    | .ok _ => readCentralDirectoryFromFile rd

/-- `ArchiveReader::entry_count` (`self.entries.len()` on the `HashMap`). -/
def ReaderState.entryCount (rd : ReaderState) : Nat :=
  distinctPathCount rd.entries

/-- `ArchiveReader::validate_local_header`.  Compares path, sizes, CRC-32
and compression method of the LOCA header against the central-directory
record (cf. the claim about the modification time: no timestamp comparison
appears in the source). -/
def validateLocalHeader (l : LocalEntryHeader) (central : EntryInfo) : Except Err Unit :=
  if l.path ≠ central.path then .error .invalidFormat
  else if l.uncompressed_size ≠ central.uncompressed_size then .error .invalidFormat
  else if l.compressed_size ≠ central.compressed_size then .error .invalidFormat
  else if l.crc32 ≠ central.crc32 then .error .invalidFormat
  else if l.compression ≠ central.compression then .error .invalidFormat
  else .ok ()

/-- `ArchiveReader::decrypt_file_data`. -/
def decryptFileData (P : Prims) (rd : ReaderState) (payload : List Nat) :
    Except Err (List Nat) :=
  if payload.length < 28 then .error .decryptionFailed
  else
    match rd.decryption_key with
    | none => .error .missingDecryptionKey
    | some k =>
      match P.aeadDec k (payload.take 12) (payload.drop 12) with
      | none => .error .decryptionFailed
      | some pt => .ok pt

/-- `ArchiveReader::decompress_lz4` / `decompress_zstd` dispatch of
`read_file` (the non-framed branch). -/
def regularDecompress (P : Prims) (m : CompressionMethod) (d : List Nat) :
    Except Err (List Nat) :=
  match m with
  | .none => .ok d
  | .lz4 =>
    match P.lz4Decomp d with
    | some x => .ok x
    | none => .error .decompressionFailed
  | .zstd =>
    match P.zstdDecomp d with
    | some x => .ok x
    | none => .error .decompressionFailed

/-- The raw-payload read of `read_file`: seek to `data_offset`, parse and
validate the LOCA header, read `compressed_size` payload bytes.  (In
archive mode the Rust code slices the in-memory buffer, which panics when
out of range; the writer never produces such offsets, and the model reads a
truncated slice instead.) -/
def readRawData (rd : ReaderState) (entry : EntryInfo) : Except Err (List Nat) :=
  match rd.encryption_mode with
  | .archive =>
    match rd.decrypted_payload with
    | none => .error .decryptionFailed
    | some payload =>
      let locaStart := entry.data_offset - 64
      match LocalEntryHeader.readFrom (payload.drop locaStart) with
      | .error e => .error e
      | .ok (localHeader, _) =>
        match validateLocalHeader localHeader entry with
        | .error e => .error e
        | .ok _ =>
          .ok ((payload.drop (locaStart + localHeader.headerSize)).take
            entry.compressed_size)
  | _ =>
    match LocalEntryHeader.readFrom (rd.file.drop entry.data_offset) with
    | .error e => .error e
    | .ok (localHeader, after) =>
      match validateLocalHeader localHeader entry with
      | .error e => .error e
      | .ok _ =>
        match pBytes entry.compressed_size after with
        | .error e => .error e
        | .ok (d, _) => .ok d

/-- `ArchiveReader::read_file`. -/
def readFileEntry (P : Prims) (rd : ReaderState) (path : List Nat) :
    Except Err (List Nat) :=
  let normalized := normalizePath path
  match (cdLookup rd.entries normalized).orElse (fun _ => cdLookup rd.entries path) with
  | none => .error .fileNotFound
  | some entry =>
    match readRawData rd entry with
    | .error e => .error e
    | .ok rawData =>
      match (if rd.encryption_mode = .perFile then decryptFileData P rd rawData
          else .ok rawData) with
      | .error e => .error e
      | .ok compressedData =>
        match (if shouldUseFrames entry.uncompressed_size ∧
              entry.compression ≠ .none then
            decompressFrames P compressedData entry.compression entry.uncompressed_size
          else regularDecompress P entry.compression compressedData) with
        | .error e => .error e
        | .ok decompressed =>
          if P.crc32 decompressed ≠ entry.crc32 then .error .crcMismatch
          else .ok decompressed

/-! ## Concrete primitives for witnesses

An executable instantiation of `Prims` satisfying the contracts that the
theorems assume: the codecs are the identity (a legal, if useless, codec),
the CRC is a u32-valued digest, and the AEAD appends a 16-byte key-derived
tag that decryption checks. -/

def toyTag (k : Nat) : List Nat := leBytes 16 k

def toyPrims : Prims :=
  { crc32 := fun d => d.length % 2 ^ 32
    lz4Comp := fun d => d
    lz4Decomp := fun d => some d
    zstdComp := fun d => d
    zstdDecomp := fun d => some d
    aeadEnc := fun k _ m => m ++ toyTag k
    aeadDec := fun k _ c =>
      if 16 ≤ c.length ∧ c.drop (c.length - 16) = toyTag k then
        some (c.take (c.length - 16))
      else none }

/-- Field bounds satisfied by every central-directory record the writer
emits (machine-integer ranges plus UTF-8 validity of the path). -/
def GoodEntry (e : EntryInfo) : Prop :=
  e.path.length ≤ 255 ∧ isValidUtf8 e.path = true ∧ e.data_offset < 2 ^ 64 ∧
    e.uncompressed_size < 2 ^ 64 ∧ e.compressed_size < 2 ^ 64 ∧ e.crc32 < 2 ^ 32 ∧
    e.modified_time < 2 ^ 64 ∧ e.flags < 256

/-! ## Contracts of the external primitives

The facts about crc32fast, lz4_flex, zstd and AES-256-GCM that the archive
code relies on.  They are hypotheses of the round-trip theorems, not
axioms; `toyPrims` discharges all of them. -/

structure PrimsOK (P : Prims) : Prop where
  crcLt : ∀ d, P.crc32 d < 2 ^ 32
  lz4rt : ∀ d, P.lz4Decomp (P.lz4Comp d) = some d
  zstdrt : ∀ d, P.zstdDecomp (P.zstdComp d) = some d
  lz4FrameLt : ∀ d, d.length ≤ 65536 → (P.lz4Comp d).length < 2 ^ 32
  zstdFrameLt : ∀ d, d.length ≤ 65536 → (P.zstdComp d).length < 2 ^ 32
  aeadLen : ∀ k n m, (P.aeadEnc k n m).length = m.length + 16
  aeadRt : ∀ k n m, P.aeadDec k n (P.aeadEnc k n m) = some m

/-! ## Writer-run structure -/

/-- Validity of one add request: the normalized path fits the
central-directory limits and is valid UTF-8 (it came from a Rust `String`),
the data fits in memory, the timestamp fits in a `u64`, and the per-entry
nonce has the AES-GCM size. -/
structure GoodAdd (a : AddReq) : Prop where
  pathLen : (normalizePath a.path).length ≤ 255
  pathUtf8 : isValidUtf8 (normalizePath a.path) = true
  dataLen : a.data.length < 2 ^ 47
  mtimeLt : a.mtime < 2 ^ 64
  nonceLen : a.nonce.length = 12

/-- Everything the reader will need about one written entry: how its
central-directory record relates to the add request, and that the body
holds its serialized LOCA header followed by its payload at
`data_offset - 64`. -/
def AddedOK (P : Prims) (mode : EncryptionMode) (key : Option Nat)
    (body : List Nat) (e : EntryInfo) (a : AddReq) : Prop :=
  ∃ cp payload lbs rest,
    compressData P a.data a.compression = .ok (cp, e.compression) ∧
    ((mode = .perFile ∧ ∃ k, key = some k ∧
        payload = a.nonce ++ P.aeadEnc k a.nonce cp) ∨
      (mode ≠ .perFile ∧ payload = cp)) ∧
    e.path = normalizePath a.path ∧
    e.uncompressed_size = a.data.length ∧
    e.compressed_size = payload.length ∧
    e.crc32 = P.crc32 a.data ∧
    e.modified_time = a.mtime ∧
    e.flags = 0 ∧
    (LocalEntryHeader.new a.data.length payload.length (P.crc32 a.data) a.mtime
      e.compression (normalizePath a.path)).writeTo = .ok lbs ∧
    lbs.length = 40 + (normalizePath a.path).length + 1 ∧
    64 ≤ e.data_offset ∧
    e.data_offset - 64 + (lbs.length + payload.length) ≤ body.length ∧
    body.drop (e.data_offset - 64) = lbs ++ (payload ++ rest)

/-- Invariant carried along a writer run: the state's configuration is
unchanged, its entries are the first components of the accumulated pairs,
and every pair is `AddedOK` for the current body. -/
def WriterOK (P : Prims) (mode : EncryptionMode) (key : Option Nat)
    (st : WriterState) (pairs : List (EntryInfo × AddReq)) : Prop :=
  st.encryption_mode = mode ∧ st.encryption_key = key ∧
    st.entries = pairs.map Prod.fst ∧
    ∀ pe ∈ pairs, AddedOK P mode key st.body pe.1 pe.2

/-- The header `finalize` patches in at offset 0 (its central-directory size
expression simplifies to `entry_count · 320` because `current_offset` is not
advanced while the records are emitted). -/
def finalHeader (st : WriterState) : FileHeader :=
  { version_major := FORMAT_VERSION_MAJOR
    version_minor := FORMAT_VERSION_MINOR
    header_crc := 0
    central_directory_offset := 64 + st.body.length
    central_directory_size := st.entries.length * 320
    entry_count := st.entries.length % 2 ^ 32
    content_version := 0
    flags := st.encryption_mode.toFlags }

/-- The end record `finalize` appends. -/
def finalEndRecord (st : WriterState) : EndRecord :=
  { version_major := FORMAT_VERSION_MAJOR
    version_minor := FORMAT_VERSION_MINOR
    central_directory_offset := 64 + st.body.length
    central_directory_size := st.entries.length * 320
    entry_count := st.entries.length % 2 ^ 32
    archive_crc32 := 0 }

/-- `ArchiveReader::open` followed by `with_decryption_key` when a key is in
play (the claims' "supplies the same key when encryption was enabled"). -/
def openWithKey (file : List Nat) (key : Option Nat) : Except Err ReaderState :=
  match ArchiveReader.open file with
  | .error e => .error e
  | .ok rd0 =>
    .ok (match key with
      | some k => rd0.withDecryptionKey k
      | none => rd0)

/-- The byte layout the frame loop emits: for each frame in order, the
compressed frame's size as a little-endian `u32` followed by its bytes. -/
def frameBody (comp : List Nat → List Nat) (d : List Nat) : Nat → Nat → List Nat
  | _, 0 => []
  | idx, k + 1 =>
    (leBytes 4 ((comp ((d.drop (idx * FRAME_SIZE)).take FRAME_SIZE)).length % 2 ^ 32) ++
      comp ((d.drop (idx * FRAME_SIZE)).take FRAME_SIZE)) ++ frameBody comp d (idx + 1) k

theorem leBytes_length (k n : Nat) : (leBytes k n).length = k := by
  induction k generalizing n with
  | zero => rfl
  | succ k ih => simp [leBytes, ih]

theorem leVal_leBytes (k n : Nat) : leVal (leBytes k n) = n % 256 ^ k := by
  induction k generalizing n with
  | zero => simp [leBytes, leVal, Nat.mod_one]
  | succ k ih =>
    simp only [leBytes, leVal, ih]
    rw [Nat.pow_succ', Nat.mod_mul]

theorem leVal_leBytes_of_lt {k n : Nat} (h : n < 256 ^ k) :
    leVal (leBytes k n) = n := by
  rw [leVal_leBytes, Nat.mod_eq_of_lt h]

theorem CompressionMethod.fromU8_toU8 (m : CompressionMethod) :
    CompressionMethod.fromU8 m.toU8 = .ok m := by
  cases m <;> rfl

theorem pthen_ok {α β : Type} {p : Parser α} {f : α → Parser β} {s : List Nat}
    {a : α} {s1 : List Nat} (h : p s = .ok (a, s1)) :
    pthen p f s = f a s1 := by
  simp [pthen, h]

theorem pBytes_append {xs r : List Nat} {k : Nat} (h : xs.length = k) :
    pBytes k (xs ++ r) = .ok (xs, r) := by
  subst h
  simp [pBytes, List.take_append, List.drop_append]

theorem pU16_append {n : Nat} {r : List Nat} :
    pU16 (leBytes 2 n ++ r) = .ok (n % 2 ^ 16, r) := by
  rw [pU16, pthen_ok (pBytes_append (leBytes_length 2 n)), leVal_leBytes]
  norm_num [ppure]

theorem pU32_append {n : Nat} {r : List Nat} :
    pU32 (leBytes 4 n ++ r) = .ok (n % 2 ^ 32, r) := by
  rw [pU32, pthen_ok (pBytes_append (leBytes_length 4 n)), leVal_leBytes]
  norm_num [ppure]

theorem pU64_append {n : Nat} {r : List Nat} :
    pU64 (leBytes 8 n ++ r) = .ok (n % 2 ^ 64, r) := by
  rw [pU64, pthen_ok (pBytes_append (leBytes_length 8 n)), leVal_leBytes]
  norm_num [ppure]

theorem parseUtf8_valid {bs : List Nat} (h : isValidUtf8 bs = true) :
    parseUtf8 bs = .ok bs := by
  simp [parseUtf8, h]

theorem toyPrims_crc_lt (d : List Nat) : toyPrims.crc32 d < 2 ^ 32 :=
  Nat.mod_lt _ (by norm_num)

theorem toyPrims_aeadEnc_length (k : Nat) (n m : List Nat) :
    (toyPrims.aeadEnc k n m).length = m.length + 16 := by
  simp [toyPrims, toyTag, leBytes_length]

theorem toyPrims_aead_roundtrip (k : Nat) (n m : List Nat) :
    toyPrims.aeadDec k n (toyPrims.aeadEnc k n m) = some m := by
  have hlen : (m ++ toyTag k).length = m.length + 16 := by
    simp [toyTag, leBytes_length]
  simp only [toyPrims, hlen]
  rw [if_pos]
  · simp
  · constructor
    · omega
    · have : m.length + 16 - 16 = m.length := by omega
      rw [this, List.drop_left]

theorem toyPrims_aead_reject (k k' : Nat) (hk : k < 2 ^ 128) (hk' : k' < 2 ^ 128)
    (hne : k ≠ k') (n m : List Nat) :
    toyPrims.aeadDec k' n (toyPrims.aeadEnc k n m) = none := by
  have hlen : (m ++ toyTag k).length = m.length + 16 := by
    simp [toyTag, leBytes_length]
  simp only [toyPrims, hlen]
  rw [if_neg]
  rintro ⟨-, htag⟩
  have : m.length + 16 - 16 = m.length := by omega
  rw [this, List.drop_left] at htag
  have := congrArg leVal htag
  rw [toyTag, toyTag, leVal_leBytes, leVal_leBytes] at this
  rw [Nat.mod_eq_of_lt (by norm_num at hk ⊢; omega),
    Nat.mod_eq_of_lt (by norm_num at hk' ⊢; omega)] at this
  exact hne this

/-! ## Serialized lengths -/

theorem fileHeader_writeTo_length (h : FileHeader) : h.writeTo.length = 64 := by
  simp [FileHeader.writeTo, MAGIC_NUMBER, leBytes_length]

theorem endRecord_writeTo_length (e : EndRecord) : e.writeTo.length = 64 := by
  simp [EndRecord.writeTo, END_RECORD_SIGNATURE, leBytes_length]

theorem entryInfo_writeTo_ok {e : EntryInfo} (h : e.path.length ≤ 255) :
    ∃ bs, e.writeTo = .ok bs ∧ bs.length = 320 := by
  have hif : ¬ e.path.length > MAX_PATH_LENGTH := by
    rw [MAX_PATH_LENGTH]
    omega
  rw [EntryInfo.writeTo, if_neg hif]
  refine ⟨_, rfl, ?_⟩
  simp only [List.length_append, List.length_replicate, List.length_cons,
    List.length_nil, leBytes_length, CENT_SIGNATURE]
  omega

theorem localEntry_writeTo_ok {h : LocalEntryHeader} (hl : h.path.length ≤ 65535) :
    ∃ bs, h.writeTo = .ok bs ∧ bs.length = 40 + h.path.length + 1 := by
  have hif : ¬ h.path.length > 65535 := by omega
  rw [LocalEntryHeader.writeTo, if_neg hif]
  refine ⟨_, rfl, ?_⟩
  simp only [List.length_append, List.length_replicate, List.length_cons,
    List.length_nil, leBytes_length, LOCAL_ENTRY_SIGNATURE]

/-! ## Parse/serialize round-trips -/

theorem pGuard_true {c : Prop} [Decidable c] (hc : c) (e : Err) (s : List Nat) :
    pGuard c e s = .ok ((), s) := by
  simp [pGuard, hc]

theorem fileHeader_readFrom_writeTo (h : FileHeader) (r : List Nat)
    (h1 : h.version_major < 2 ^ 16) (h2 : h.version_minor < 2 ^ 16)
    (h3 : h.header_crc < 2 ^ 32) (h4 : h.central_directory_offset < 2 ^ 64)
    (h5 : h.central_directory_size < 2 ^ 64) (h6 : h.entry_count < 2 ^ 32)
    (h7 : h.content_version < 2 ^ 32) (h8 : h.flags < 2 ^ 32)
    (hv : 1 ≤ h.version_major) :
    FileHeader.readFrom (h.writeTo ++ r) = .ok (h, r) := by
  rw [FileHeader.writeTo]
  simp only [List.append_assoc]
  rw [FileHeader.readFrom,
    pthen_ok (pBytes_append (by simp [MAGIC_NUMBER]))]
  rw [pthen_ok (pGuard_true rfl _ _)]
  rw [pthen_ok pU16_append, pthen_ok pU16_append, pthen_ok pU32_append,
    pthen_ok pU64_append, pthen_ok pU64_append, pthen_ok pU32_append,
    pthen_ok pU32_append]
  rw [Nat.mod_eq_of_lt h1, Nat.mod_eq_of_lt h2, Nat.mod_eq_of_lt h3,
    Nat.mod_eq_of_lt h4, Nat.mod_eq_of_lt h5, Nat.mod_eq_of_lt h6,
    Nat.mod_eq_of_lt h7]
  rw [if_pos (Or.inl hv)]
  rw [pthen_ok pU32_append, Nat.mod_eq_of_lt h8]
  rw [pthen_ok (pBytes_append (by simp))]
  rfl

theorem endRecord_readFrom_writeTo (e : EndRecord) (r : List Nat)
    (h1 : e.version_major < 2 ^ 16) (h2 : e.version_minor < 2 ^ 16)
    (h3 : e.central_directory_offset < 2 ^ 64)
    (h4 : e.central_directory_size < 2 ^ 64) (h5 : e.entry_count < 2 ^ 32)
    (h6 : e.archive_crc32 < 2 ^ 32) :
    EndRecord.readFrom (e.writeTo ++ r) = .ok (e, r) := by
  rw [EndRecord.writeTo]
  simp only [List.append_assoc]
  rw [EndRecord.readFrom,
    pthen_ok (pBytes_append (by simp [END_RECORD_SIGNATURE]))]
  rw [pthen_ok (pGuard_true rfl _ _)]
  rw [pthen_ok pU16_append, pthen_ok pU16_append, pthen_ok pU64_append,
    pthen_ok pU64_append, pthen_ok pU32_append, pthen_ok pU32_append]
  rw [Nat.mod_eq_of_lt h1, Nat.mod_eq_of_lt h2, Nat.mod_eq_of_lt h3,
    Nat.mod_eq_of_lt h4, Nat.mod_eq_of_lt h5, Nat.mod_eq_of_lt h6]
  rw [pthen_ok (pBytes_append (by simp))]
  rfl

theorem leVal_singleton (x : Nat) : leVal [x] = x := by
  simp [leVal]

theorem pLift_ok {α : Type} {x : Except Err α} {a : α} (h : x = .ok a)
    (s : List Nat) : pLift x s = .ok (a, s) := by
  cases h
  rfl

theorem entryInfo_readFrom_writeTo {e : EntryInfo} {bs : List Nat} (r : List Nat)
    (hg : GoodEntry e) (hw : e.writeTo = .ok bs) :
    EntryInfo.readFrom (bs ++ r) = .ok (e, r) := by
  obtain ⟨hp, hutf, h3, h4, h5, h6, h7, h8⟩ := hg
  rw [EntryInfo.writeTo, if_neg (show ¬ e.path.length > MAX_PATH_LENGTH by
    rw [MAX_PATH_LENGTH]; omega)] at hw
  cases hw
  simp only [List.append_assoc]
  rw [EntryInfo.readFrom,
    pthen_ok (pBytes_append (by rw [CENT_SIGNATURE]; rfl))]
  rw [pthen_ok (pGuard_true rfl _ _)]
  rw [pthen_ok pU64_append, pthen_ok pU64_append, pthen_ok pU64_append,
    pthen_ok pU32_append, pthen_ok pU64_append]
  rw [Nat.mod_eq_of_lt h3, Nat.mod_eq_of_lt h4, Nat.mod_eq_of_lt h5,
    Nat.mod_eq_of_lt h6, Nat.mod_eq_of_lt h7]
  rw [pthen_ok (pBytes_append (by simp))]
  rw [pthen_ok (pLift_ok (by rw [leVal_singleton, CompressionMethod.fromU8_toU8]) _)]
  rw [pthen_ok (pBytes_append (by simp))]
  rw [pthen_ok pU16_append]
  rw [Nat.mod_eq_of_lt (show e.path.length < 2 ^ 16 by norm_num; omega)]
  rw [← List.append_assoc e.path]
  rw [pthen_ok (pBytes_append (by
    simp only [List.length_append, List.length_replicate]
    omega))]
  rw [pthen_ok (pLift_ok (by rw [List.take_left, parseUtf8_valid hutf]) _)]
  rw [pthen_ok (pBytes_append (by rw [List.length_replicate]))]
  rw [ppure, leVal_singleton, Nat.mod_eq_of_lt h8]

theorem localEntry_readFrom_writeTo {h : LocalEntryHeader} {bs : List Nat}
    (r : List Nat) (hp : h.path.length ≤ 65535) (hutf : isValidUtf8 h.path = true)
    (h3 : h.uncompressed_size < 2 ^ 64) (h4 : h.compressed_size < 2 ^ 64)
    (h5 : h.crc32 < 2 ^ 32) (h6 : h.modified_time < 2 ^ 64) (h7 : h.flags < 256)
    (hw : h.writeTo = .ok bs) :
    LocalEntryHeader.readFrom (bs ++ r) = .ok (h, r) := by
  rw [LocalEntryHeader.writeTo, if_neg (by omega)] at hw
  cases hw
  simp only [List.append_assoc]
  rw [LocalEntryHeader.readFrom,
    pthen_ok (pBytes_append (by rw [LOCAL_ENTRY_SIGNATURE]; rfl))]
  rw [pthen_ok (pGuard_true rfl _ _)]
  rw [pthen_ok pU64_append, pthen_ok pU64_append, pthen_ok pU32_append,
    pthen_ok pU64_append]
  rw [Nat.mod_eq_of_lt h3, Nat.mod_eq_of_lt h4, Nat.mod_eq_of_lt h5,
    Nat.mod_eq_of_lt h6]
  rw [pthen_ok (pBytes_append (by simp))]
  rw [pthen_ok (pLift_ok (by rw [leVal_singleton, CompressionMethod.fromU8_toU8]) _)]
  rw [pthen_ok (pBytes_append (by simp))]
  rw [pthen_ok pU16_append]
  rw [Nat.mod_eq_of_lt (show h.path.length < 2 ^ 16 by norm_num; omega)]
  rw [pthen_ok (pBytes_append (by rw [List.length_replicate]))]
  rw [pthen_ok (pBytes_append (by simp))]
  rw [pthen_ok (pLift_ok (parseUtf8_valid hutf) _)]
  rw [pthen_ok (pBytes_append (by simp))]
  rw [pthen_ok (pGuard_true rfl _ _)]
  rw [ppure, leVal_singleton, Nat.mod_eq_of_lt h7]

/-- The writer's central-directory loop succeeds when all paths fit, and the
reader's loop parses the emitted bytes back to the same records. -/
theorem writeCentralDirectory_ok {es : List EntryInfo}
    (hp : ∀ e ∈ es, e.path.length ≤ 255) :
    ∃ bs, writeCentralDirectory es = .ok bs ∧ bs.length = 320 * es.length := by
  induction es with
  | nil => exact ⟨[], rfl, rfl⟩
  | cons e rest ih =>
    obtain ⟨bs0, hbs0, hlen0⟩ := entryInfo_writeTo_ok (hp e (by simp))
    obtain ⟨bsr, hbsr, hlenr⟩ := ih fun x hx => hp x (by simp [hx])
    refine ⟨bs0 ++ bsr, ?_, ?_⟩
    · rw [writeCentralDirectory, hbs0, hbsr]
    · simp [hlen0, hlenr, List.length_append]
      ring

theorem readCDRecords_roundtrip {es : List EntryInfo} {bs : List Nat}
    (r : List Nat) (hg : ∀ e ∈ es, GoodEntry e)
    (hw : writeCentralDirectory es = .ok bs) :
    readCDRecords es.length (bs ++ r) = .ok (es, r) := by
  induction es generalizing bs with
  | nil =>
    cases hw
    rfl
  | cons e rest ih =>
    rw [writeCentralDirectory] at hw
    cases hbs0 : e.writeTo with
    | error er => rw [hbs0] at hw; cases hw
    | ok bs0 =>
      rw [hbs0] at hw
      cases hbsr : writeCentralDirectory rest with
      | error er => rw [hbsr] at hw; cases hw
      | ok bsr =>
        rw [hbsr] at hw
        cases hw
        rw [List.length_cons, readCDRecords]
        rw [List.append_assoc]
        rw [pthen_ok (entryInfo_readFrom_writeTo _ (hg e (by simp)) hbs0)]
        rw [pthen_ok (ih (fun x hx => hg x (by simp [hx])) hbsr)]
        rfl

theorem toyPrims_ok : PrimsOK toyPrims :=
  { crcLt := toyPrims_crc_lt
    lz4rt := fun _ => rfl
    zstdrt := fun _ => rfl
    lz4FrameLt := fun d h => by
      show d.length < 2 ^ 32
      omega
    zstdFrameLt := fun d h => by
      show d.length < 2 ^ 32
      omega
    aeadLen := toyPrims_aeadEnc_length
    aeadRt := toyPrims_aead_roundtrip }

/-! ## Compression pipeline lemmas -/

theorem compressFramesAux_isOk (P : Prims) {m : CompressionMethod} (hm : m ≠ .none)
    (d : List Nat) (idx k : Nat) :
    ∃ body, compressFramesAux P m d idx k = .ok body := by
  induction k generalizing idx with
  | zero => exact ⟨[], rfl⟩
  | succ k ih =>
    obtain ⟨rest, hrest⟩ := ih (idx + 1)
    cases m with
    | none => exact absurd rfl hm
    | lz4 => exact ⟨_, by rw [compressFramesAux, frameComp, hrest]⟩
    | zstd => exact ⟨_, by rw [compressFramesAux, frameComp, hrest]⟩

theorem compressData_isOk (P : Prims) (d : List Nat) (c : CompressionMethod) :
    ∃ cp actual, compressData P d c = .ok (cp, actual) := by
  rw [compressData.eq_def]
  by_cases hf : shouldUseFrames d.length
  · rw [if_pos hf]
    cases c with
    | none => exact ⟨d, .none, rfl⟩
    | lz4 =>
      obtain ⟨body, hbody⟩ := compressFramesAux_isOk P (m := .lz4) (by simp) d 0
        ((d.length + (FRAME_SIZE - 1)) / FRAME_SIZE)
      rw [show compressFrames P d .lz4 = .ok
          (leBytes 4 ((((d.length + (FRAME_SIZE - 1)) / FRAME_SIZE)) % 2 ^ 32) ++ body) from by
        rw [compressFrames, if_neg (by simp [shouldUseFrames] at hf; omega), hbody]]
      exact ⟨_, _, rfl⟩
    | zstd =>
      obtain ⟨body, hbody⟩ := compressFramesAux_isOk P (m := .zstd) (by simp) d 0
        ((d.length + (FRAME_SIZE - 1)) / FRAME_SIZE)
      rw [show compressFrames P d .zstd = .ok
          (leBytes 4 ((((d.length + (FRAME_SIZE - 1)) / FRAME_SIZE)) % 2 ^ 32) ++ body) from by
        rw [compressFrames, if_neg (by simp [shouldUseFrames] at hf; omega), hbody]]
      exact ⟨_, _, rfl⟩
  · rw [if_neg hf]
    cases c with
    | none => exact ⟨d, .none, rfl⟩
    | lz4 => exact ⟨_, _, rfl⟩
    | zstd => exact ⟨_, _, rfl⟩

/-- Parsing back the frame sequence emitted by the compression loop yields
the input chunks re-joined: frames `idx, …, idx+k-1` decompress to
`(d.drop (idx·65536)).take (k·65536)`. -/
theorem decompressFramesAux_roundtrip {P : Prims} (hP : PrimsOK P)
    {m : CompressionMethod} (hm : m = .lz4 ∨ m = .zstd) (d r : List Nat) :
    ∀ k idx body, compressFramesAux P m d idx k = .ok body →
      decompressFramesAux P m k (body ++ r) =
        .ok ((d.drop (idx * FRAME_SIZE)).take (k * FRAME_SIZE), r) := by
  intro k
  induction k with
  | zero =>
    intro idx body hb
    cases hb
    simp [decompressFramesAux, ppure]
  | succ k ih =>
    intro idx body hb
    have hchunklen : ((d.drop (idx * FRAME_SIZE)).take FRAME_SIZE).length ≤ 65536 := by
      simp only [List.length_take, FRAME_SIZE]
      omega
    have hjoin : (d.drop (idx * FRAME_SIZE)).take FRAME_SIZE ++
        ((d.drop ((idx + 1) * FRAME_SIZE)).take (k * FRAME_SIZE)) =
        (d.drop (idx * FRAME_SIZE)).take ((k + 1) * FRAME_SIZE) := by
      rw [show (k + 1) * FRAME_SIZE = FRAME_SIZE + k * FRAME_SIZE by ring,
        List.take_add, List.drop_drop,
        show idx * FRAME_SIZE + FRAME_SIZE = (idx + 1) * FRAME_SIZE by ring]
    rcases hm with hm | hm
    · subst hm
      rw [compressFramesAux, frameComp] at hb
      have hlt := hP.lz4FrameLt _ hchunklen
      cases hrest : compressFramesAux P .lz4 d (idx + 1) k with
      | error er =>
        rw [hrest] at hb
        cases hb
      | ok rest =>
        rw [hrest] at hb
        cases hb
        rw [Nat.mod_eq_of_lt hlt] at *
        rw [decompressFramesAux]
        simp only [List.append_assoc]
        rw [pthen_ok pU32_append, Nat.mod_eq_of_lt hlt]
        rw [pthen_ok (pBytes_append (by simp))]
        rw [pthen_ok (pLift_ok (show frameDecomp P .lz4 _ = .ok _ by
          rw [frameDecomp, hP.lz4rt]) _)]
        rw [pthen_ok (ih (idx + 1) rest hrest)]
        rw [ppure, hjoin]
    · subst hm
      rw [compressFramesAux, frameComp] at hb
      have hlt := hP.zstdFrameLt _ hchunklen
      cases hrest : compressFramesAux P .zstd d (idx + 1) k with
      | error er =>
        rw [hrest] at hb
        cases hb
      | ok rest =>
        rw [hrest] at hb
        cases hb
        rw [Nat.mod_eq_of_lt hlt] at *
        rw [decompressFramesAux]
        simp only [List.append_assoc]
        rw [pthen_ok pU32_append, Nat.mod_eq_of_lt hlt]
        rw [pthen_ok (pBytes_append (by simp))]
        rw [pthen_ok (pLift_ok (show frameDecomp P .zstd _ = .ok _ by
          rw [frameDecomp, hP.zstdrt]) _)]
        rw [pthen_ok (ih (idx + 1) rest hrest)]
        rw [ppure, hjoin]

/-- Framed round-trip: decompressing the framed payload with the entry's
declared uncompressed size restores the input exactly. -/
theorem decompressFrames_compressFrames {P : Prims} (hP : PrimsOK P)
    {m : CompressionMethod} (hm : m = .lz4 ∨ m = .zstd) {d out : List Nat}
    (hmin : MIN_FRAME_COMPRESSION_SIZE ≤ d.length) (h47 : d.length < 2 ^ 47)
    (hcf : compressFrames P d m = .ok out) :
    decompressFrames P out m d.length = .ok d := by
  rw [compressFrames, if_neg (by omega)] at hcf
  cases hbody : compressFramesAux P m d 0 ((d.length + (FRAME_SIZE - 1)) / FRAME_SIZE) with
  | error er =>
    rw [hbody] at hcf
    cases hcf
  | ok body =>
    rw [hbody] at hcf
    cases hcf
    have hcountlt : (d.length + (FRAME_SIZE - 1)) / FRAME_SIZE < 2 ^ 32 := by
      rw [FRAME_SIZE]
      omega
    have hcover : d.length ≤ ((d.length + (FRAME_SIZE - 1)) / FRAME_SIZE) * FRAME_SIZE := by
      rw [FRAME_SIZE]
      omega
    rw [decompressFrames, pthen_ok pU32_append, Nat.mod_eq_of_lt (by
      rw [Nat.mod_eq_of_lt hcountlt]
      exact hcountlt), Nat.mod_eq_of_lt hcountlt]
    rw [show body = body ++ [] by rw [List.append_nil]]
    rw [decompressFramesAux_roundtrip hP hm d [] _ 0 body hbody]
    rw [Nat.zero_mul, List.drop_zero, List.take_of_length_le hcover]
    simp

/-- Whatever `compress_data` stored, the reader's decompression dispatch
(framed when `uncompressed_size ≥ 50 MiB` and the method is not `None`,
regular otherwise) restores the original data. -/
theorem decode_of_compressData {P : Prims} (hP : PrimsOK P) {d cp : List Nat}
    {c actual : CompressionMethod} (h47 : d.length < 2 ^ 47)
    (hcd : compressData P d c = .ok (cp, actual)) :
    (if shouldUseFrames d.length ∧ actual ≠ .none then
      decompressFrames P cp actual d.length
    else regularDecompress P actual cp) = .ok d := by
  rw [compressData.eq_def] at hcd
  by_cases hf : shouldUseFrames d.length
  · rw [if_pos hf] at hcd
    have hmin : MIN_FRAME_COMPRESSION_SIZE ≤ d.length := by
      simpa [shouldUseFrames] using hf
    cases c with
    | none =>
      cases hcd
      rw [if_neg (by simp [hf])]
      rfl
    | lz4 =>
      cases hout : compressFrames P d .lz4 with
      | error er =>
        rw [hout] at hcd
        cases hcd
      | ok out =>
        rw [hout] at hcd
        cases hcd
        rw [if_pos (by simp [hf])]
        exact decompressFrames_compressFrames hP (Or.inl rfl) hmin h47 hout
    | zstd =>
      cases hout : compressFrames P d .zstd with
      | error er =>
        rw [hout] at hcd
        cases hcd
      | ok out =>
        rw [hout] at hcd
        cases hcd
        rw [if_pos (by simp [hf])]
        exact decompressFrames_compressFrames hP (Or.inr rfl) hmin h47 hout
  · rw [if_neg hf] at hcd
    cases c with
    | none =>
      cases hcd
      rw [if_neg (by simp [hf])]
      rfl
    | lz4 =>
      dsimp only at hcd
      by_cases hlt : (P.lz4Comp d).length < d.length
      · rw [if_pos hlt] at hcd
        cases hcd
        rw [if_neg (by simp [hf])]
        rw [regularDecompress, hP.lz4rt]
      · rw [if_neg hlt] at hcd
        cases hcd
        rw [if_neg (by simp [hf])]
        rfl
    | zstd =>
      dsimp only at hcd
      by_cases hlt : (P.zstdComp d).length < d.length
      · rw [if_pos hlt] at hcd
        cases hcd
        rw [if_neg (by simp [hf])]
        rw [regularDecompress, hP.zstdrt]
      · rw [if_neg hlt] at hcd
        cases hcd
        rw [if_neg (by simp [hf])]
        rfl

/-- Exact effect of one successful `add_file_with_compression` call. -/
theorem addFile_step {P : Prims} {st : WriterState} (a : AddReq)
    (hkey : st.encryption_mode = .perFile → ∃ k, st.encryption_key = some k)
    (hpl : (normalizePath a.path).length ≤ 65535) :
    ∃ cp actual payload lbs,
      compressData P a.data a.compression = .ok (cp, actual) ∧
      ((st.encryption_mode = .perFile ∧ ∃ k, st.encryption_key = some k ∧
          payload = a.nonce ++ P.aeadEnc k a.nonce cp) ∨
        (st.encryption_mode ≠ .perFile ∧ payload = cp)) ∧
      (LocalEntryHeader.new a.data.length payload.length (P.crc32 a.data) a.mtime actual
        (normalizePath a.path)).writeTo = .ok lbs ∧
      addFileWithCompression P st a.path a.data a.compression a.mtime a.nonce =
        .ok { st with
          body := st.body ++ (lbs ++ payload)
          entries := st.entries ++
            [{ path := normalizePath a.path, data_offset := 64 + st.body.length
               uncompressed_size := a.data.length, compressed_size := payload.length
               crc32 := P.crc32 a.data, modified_time := a.mtime
               compression := actual, flags := 0 }] } := by
  obtain ⟨cp, actual, hcd⟩ := compressData_isOk P a.data a.compression
  by_cases hm : st.encryption_mode = .perFile
  · obtain ⟨k, hk⟩ := hkey hm
    obtain ⟨lbs, hlbs, -⟩ := localEntry_writeTo_ok
      (h := LocalEntryHeader.new a.data.length (a.nonce ++ P.aeadEnc k a.nonce cp).length
        (P.crc32 a.data) a.mtime actual (normalizePath a.path)) (by
      show (normalizePath a.path).length ≤ 65535
      omega)
    refine ⟨cp, actual, a.nonce ++ P.aeadEnc k a.nonce cp, lbs, hcd,
      Or.inl ⟨hm, k, hk, rfl⟩, hlbs, ?_⟩
    simp only [addFileWithCompression, hcd, if_pos hm, encryptFileData, hk, hlbs,
      List.append_assoc]
  · obtain ⟨lbs, hlbs, -⟩ := localEntry_writeTo_ok
      (h := LocalEntryHeader.new a.data.length cp.length
        (P.crc32 a.data) a.mtime actual (normalizePath a.path)) (by
      show (normalizePath a.path).length ≤ 65535
      omega)
    refine ⟨cp, actual, cp, lbs, hcd, Or.inr ⟨hm, rfl⟩, hlbs, ?_⟩
    simp only [addFileWithCompression, hcd, if_neg hm, hlbs, List.append_assoc]

theorem AddedOK.mono {P : Prims} {mode : EncryptionMode} {key : Option Nat}
    {body ext : List Nat} {e : EntryInfo} {a : AddReq}
    (h : AddedOK P mode key body e a) : AddedOK P mode key (body ++ ext) e a := by
  obtain ⟨cp, payload, lbs, rest, h1, h2, h3, h4, h5, h6, h7, h8, h9, h10, h11, h12, h13⟩ := h
  refine ⟨cp, payload, lbs, rest ++ ext, h1, h2, h3, h4, h5, h6, h7, h8, h9, h10, h11, ?_, ?_⟩
  · simp only [List.length_append]
    omega
  · rw [List.drop_append_of_le_length (by omega), h13]
    simp [List.append_assoc]

/-- A writer run from a consistent state succeeds on good add requests and
extends the pair list by exactly the requests executed. -/
theorem runAdds_ok {P : Prims} {mode : EncryptionMode} {key : Option Nat}
    (hkey : mode = .perFile → ∃ k, key = some k) {adds : List AddReq}
    (hgood : ∀ a ∈ adds, GoodAdd a) :
    ∀ {st0 : WriterState} {pairs0 : List (EntryInfo × AddReq)},
      WriterOK P mode key st0 pairs0 →
      ∃ st pairs, runAdds P st0 adds = .ok st ∧
        WriterOK P mode key st (pairs0 ++ pairs) ∧
        pairs.map Prod.snd = adds := by
  induction adds with
  | nil =>
    intro st0 pairs0 h0
    exact ⟨st0, [], rfl, by simpa using h0, rfl⟩
  | cons a rest ih =>
    intro st0 pairs0 h0
    obtain ⟨hm, hk, hent, hall⟩ := h0
    obtain ⟨cp, actual, payload, lbs, hcd, henc, hlbs, hstep⟩ :=
      @addFile_step P st0 a
        (fun hpf => hk.symm ▸ hkey (hm.symm.trans hpf))
        (le_trans (hgood a (by simp)).pathLen (by norm_num))
    set e : EntryInfo :=
      { path := normalizePath a.path, data_offset := 64 + st0.body.length
        uncompressed_size := a.data.length, compressed_size := payload.length
        crc32 := P.crc32 a.data, modified_time := a.mtime
        compression := actual, flags := 0 } with he
    have hlbslen : lbs.length = 40 + (normalizePath a.path).length + 1 := by
      obtain ⟨lbs2, hlbs2, hlen2⟩ := localEntry_writeTo_ok
        (h := LocalEntryHeader.new a.data.length payload.length (P.crc32 a.data) a.mtime
          actual (normalizePath a.path))
        (le_trans (hgood a (by simp)).pathLen (by norm_num))
      rw [hlbs] at hlbs2
      cases hlbs2
      exact hlen2
    have hst1 : WriterOK P mode key
        { st0 with
          body := st0.body ++ (lbs ++ payload)
          entries := st0.entries ++ [e] } (pairs0 ++ [(e, a)]) := by
      refine ⟨hm, hk, by simp [hent], ?_⟩
      intro pe hpe
      rw [List.mem_append] at hpe
      rcases hpe with hpe | hpe
      · exact (hall pe hpe).mono
      · rw [List.mem_singleton] at hpe
        subst hpe
        refine ⟨cp, payload, lbs, [], ?_, ?_, rfl, rfl, rfl, rfl, rfl, rfl, ?_, hlbslen,
          show (64:Nat) ≤ 64 + st0.body.length by omega, ?_, ?_⟩
        · exact hcd
        · rcases henc with ⟨hpf, k, hk2, hpay⟩ | ⟨hpf, hpay⟩
          · exact Or.inl ⟨hm ▸ hpf, k, hk ▸ hk2, hpay⟩
          · exact Or.inr ⟨fun hc => hpf (hm ▸ hc), hpay⟩
        · exact hlbs
        · show 64 + st0.body.length - 64 + (lbs.length + payload.length) ≤
            (st0.body ++ (lbs ++ payload)).length
          simp only [List.length_append]
          omega
        · show (st0.body ++ (lbs ++ payload)).drop (64 + st0.body.length - 64) =
            lbs ++ (payload ++ [])
          rw [show 64 + st0.body.length - 64 = st0.body.length by omega]
          rw [show st0.body.length = st0.body.length + 0 by omega, List.drop_append]
          simp
    obtain ⟨st, pairs, hrun, hwok, hmap⟩ := ih (fun x hx => hgood x (by simp [hx])) hst1
    refine ⟨st, (e, a) :: pairs, ?_, ?_, by simp [hmap]⟩
    · rw [runAdds, hstep]
      exact hrun
    · simpa using hwok

/-! ## Reader-side correctness -/

theorem normalizePath_idem (p : List Nat) :
    normalizePath (normalizePath p) = normalizePath p := by
  simp only [normalizePath, List.map_map]
  congr 1
  funext b
  by_cases hb : b = 92 <;> simp [hb, Function.comp]

/-- Reading back one entry in an unencrypted or per-entry-encrypted archive:
if the reader's index resolves the normalized path to the record `e` of an
added pair, `read_file` returns the original bytes. -/
theorem readFileEntry_ok_plain {P : Prims} (hP : PrimsOK P) {mode : EncryptionMode}
    {key : Option Nat} {body tail : List Nat} {rd : ReaderState} {e : EntryInfo}
    {a : AddReq} (hmode : mode = .none ∨ mode = .perFile)
    (hrdmode : rd.encryption_mode = mode) (hrdkey : rd.decryption_key = key)
    (hga : GoodAdd a) (hadd : AddedOK P mode key body e a)
    (hb64 : body.length < 2 ^ 64) (hfile : rd.file.drop 64 = body ++ tail)
    (hlook : cdLookup rd.entries (normalizePath a.path) = some e) :
    readFileEntry P rd e.path = .ok a.data := by
  obtain ⟨cp, payload, lbs, rest0, hcd, henc, hpath, husize, hcsize, hcrc, hmtime, hflags,
    hlw, hlbslen, hoff, hbound, hdrop⟩ := hadd
  -- the byte region at data_offset: LOCA header, then payload
  have hregion : rd.file.drop e.data_offset = lbs ++ (payload ++ (rest0 ++ tail)) := by
    rw [show e.data_offset = 64 + (e.data_offset - 64) by omega, ← List.drop_drop, hfile,
      List.drop_append_of_le_length (by omega), hdrop]
    simp [List.append_assoc]
  -- LOCA header parse and cross-validation
  have hloca : LocalEntryHeader.readFrom (rd.file.drop e.data_offset) =
      .ok (LocalEntryHeader.new a.data.length payload.length (P.crc32 a.data) a.mtime
        e.compression (normalizePath a.path), payload ++ (rest0 ++ tail)) := by
    rw [hregion]
    exact localEntry_readFrom_writeTo _
      (by simp only [LocalEntryHeader.new]; have := hga.pathLen; omega)
      (by simp only [LocalEntryHeader.new]; exact hga.pathUtf8)
      (by simp only [LocalEntryHeader.new]; have := hga.dataLen; norm_num at this ⊢; omega)
      (by simp only [LocalEntryHeader.new]; omega)
      (by simp only [LocalEntryHeader.new]; exact hP.crcLt a.data)
      (by simp only [LocalEntryHeader.new]; exact hga.mtimeLt)
      (by simp only [LocalEntryHeader.new]; norm_num) hlw
  have hval : validateLocalHeader
      (LocalEntryHeader.new a.data.length payload.length (P.crc32 a.data) a.mtime
        e.compression (normalizePath a.path)) e = .ok () := by
    simp [validateLocalHeader, LocalEntryHeader.new, hpath, husize, hcsize, hcrc]
  have hraw : readRawData rd e = .ok payload := by
    rcases hmode with rfl | rfl <;>
    · rw [readRawData.eq_def, hrdmode]
      dsimp only
      rw [hloca]
      dsimp only
      rw [hval]
      dsimp only
      rw [hcsize, pBytes_append (by rfl)]
  rw [readFileEntry, hpath, normalizePath_idem, hlook]
  dsimp only [Option.orElse]
  rw [hraw]
  dsimp only
  have hdec : (if rd.encryption_mode = EncryptionMode.perFile then
      decryptFileData P rd payload else .ok payload) = .ok cp := by
    rcases henc with ⟨hpf, k, hkk, hpay⟩ | ⟨hpf, hpay⟩
    · rw [if_pos (by rw [hrdmode, hpf]), hpay, decryptFileData]
      rw [if_neg (by
        simp only [List.length_append, hP.aeadLen, hga.nonceLen]
        omega)]
      rw [hrdkey, hkk]
      dsimp only
      rw [show (a.nonce ++ P.aeadEnc k a.nonce cp).take 12 = a.nonce by
        rw [← hga.nonceLen, List.take_left]]
      rw [show (a.nonce ++ P.aeadEnc k a.nonce cp).drop 12 = P.aeadEnc k a.nonce cp by
        rw [← hga.nonceLen, List.drop_left]]
      rw [hP.aeadRt]
    · rw [if_neg (by rw [hrdmode]; exact hpf), hpay]
  rw [hdec]
  dsimp only
  rw [husize, decode_of_compressData hP hga.dataLen hcd]
  dsimp only
  rw [hcrc, if_neg (by simp)]

theorem headerW_drop64 (h : FileHeader) (x : List Nat) : (h.writeTo ++ x).drop 64 = x := by
  rw [← fileHeader_writeTo_length h]
  exact List.drop_left _ _

theorem headerW_take64 (h : FileHeader) (x : List Nat) : (h.writeTo ++ x).take 64 = h.writeTo := by
  rw [← fileHeader_writeTo_length h]
  exact List.take_left _ _

theorem EncryptionMode.fromFlags_toFlags (m : EncryptionMode) :
    EncryptionMode.fromFlags m.toFlags = m := by
  cases m <;> rfl

theorem EncryptionMode.toFlags_lt (m : EncryptionMode) : m.toFlags < 2 ^ 32 := by
  cases m <;> norm_num [EncryptionMode.toFlags]

theorem finalize_plain {P : Prims} {st : WriterState} (hmode : st.encryption_mode ≠ .archive)
    (hp : ∀ e ∈ st.entries, e.path.length ≤ 255) (nonceA : List Nat) :
    ∃ cdBytes, writeCentralDirectory st.entries = .ok cdBytes ∧
      cdBytes.length = 320 * st.entries.length ∧
      finalizeArchive P st nonceA = .ok
        ((finalHeader st).writeTo ++ (st.body ++ (cdBytes ++ (finalEndRecord st).writeTo))) := by
  obtain ⟨cdBytes, hwcd, hlen⟩ := writeCentralDirectory_ok hp
  refine ⟨cdBytes, hwcd, hlen, ?_⟩
  rw [finalizeArchive, hwcd]
  dsimp only
  rw [if_neg hmode]
  dsimp only
  rw [List.append_assoc FileHeader.new.writeTo st.body cdBytes, headerW_drop64]
  simp [FileHeader.setEncryptionMode, FileHeader.new, finalHeader, finalEndRecord,
    EndRecord.new, EncryptionMode.toFlags, FORMAT_VERSION_MAJOR, FORMAT_VERSION_MINOR,
    List.append_assoc]

theorem finalize_archive {P : Prims} {st : WriterState} {k : Nat}
    (hmode : st.encryption_mode = .archive) (hk : st.encryption_key = some k)
    (hp : ∀ e ∈ st.entries, e.path.length ≤ 255) (nonceA : List Nat) :
    ∃ cdBytes, writeCentralDirectory st.entries = .ok cdBytes ∧
      cdBytes.length = 320 * st.entries.length ∧
      finalizeArchive P st nonceA = .ok
        ((finalHeader st).writeTo ++
          ((nonceA ++ P.aeadEnc k nonceA (st.body ++ cdBytes)) ++
            (finalEndRecord st).writeTo)) := by
  obtain ⟨cdBytes, hwcd, hlen⟩ := writeCentralDirectory_ok hp
  refine ⟨cdBytes, hwcd, hlen, ?_⟩
  rw [finalizeArchive, hwcd]
  dsimp only
  rw [if_pos hmode, hk]
  dsimp only
  rw [List.append_assoc FileHeader.new.writeTo st.body cdBytes, headerW_take64,
    headerW_drop64]
  rw [List.append_assoc FileHeader.new.writeTo nonceA
    (P.aeadEnc k nonceA (st.body ++ cdBytes)), headerW_drop64]
  simp [FileHeader.setEncryptionMode, FileHeader.new, finalHeader, finalEndRecord,
    EndRecord.new, EncryptionMode.toFlags, FORMAT_VERSION_MAJOR, FORMAT_VERSION_MINOR,
    List.append_assoc, hmode]

theorem goodEntry_of_addedOK {P : Prims} (hP : PrimsOK P) {mode : EncryptionMode}
    {key : Option Nat} {body : List Nat} {e : EntryInfo} {a : AddReq}
    (hadd : AddedOK P mode key body e a) (hga : GoodAdd a)
    (hb : 64 + body.length < 2 ^ 64) : GoodEntry e := by
  obtain ⟨cp, payload, lbs, rest0, hcd, henc, hpath, husize, hcsize, hcrc, hmtime, hflags,
    hlw, hlbslen, hoff, hbound, hdrop⟩ := hadd
  refine ⟨?_, ?_, ?_, ?_, ?_, ?_, ?_, ?_⟩
  · rw [hpath]
    exact hga.pathLen
  · rw [hpath]
    exact hga.pathUtf8
  · omega
  · rw [husize]
    have := hga.dataLen
    norm_num at this ⊢
    omega
  · rw [hcsize]
    omega
  · rw [hcrc]
    exact hP.crcLt _
  · rw [hmtime]
    exact hga.mtimeLt
  · rw [hflags]
    norm_num

theorem pipeline_plain {P : Prims} (hP : PrimsOK P) {mode : EncryptionMode}
    {key : Option Nat} {st : WriterState} {pairs : List (EntryInfo × AddReq)}
    (hw : WriterOK P mode key st pairs) (hmode : mode = .none ∨ mode = .perFile)
    (hgood : ∀ pe ∈ pairs, GoodAdd pe.2)
    (hcnt : st.entries.length < 2 ^ 32)
    (hsz : 64 + st.body.length + 320 * st.entries.length + 64 < 2 ^ 64)
    (nonceA : List Nat) :
    ∃ cdBytes file rd,
      writeCentralDirectory st.entries = .ok cdBytes ∧
      finalizeArchive P st nonceA = .ok file ∧
      openWithKey file key = .ok
        { file := file, header := finalHeader st, entries := [], entry_list := []
          encryption_mode := mode, decryption_key := key, decrypted_payload := none } ∧
      initReader P
        { file := file, header := finalHeader st, entries := [], entry_list := []
          encryption_mode := mode, decryption_key := key, decrypted_payload := none } = .ok rd ∧
      rd.entries = st.entries ∧
      rd.encryption_mode = mode ∧
      rd.decryption_key = key ∧
      rd.decrypted_payload = none ∧
      rd.file = file ∧
      file.drop 64 = st.body ++ (cdBytes ++ (finalEndRecord st).writeTo) := by
  obtain ⟨hm, hk, hent, hall⟩ := hw
  have hmodene : st.encryption_mode ≠ .archive := by
    rcases hmode with rfl | rfl <;> rw [hm] <;> simp
  have hp255 : ∀ e ∈ st.entries, e.path.length ≤ 255 := by
    intro e he
    rw [hent] at he
    obtain ⟨pe, hpe, rfl⟩ := List.mem_map.mp he
    obtain ⟨cp, payload, lbs, rest0, hcd, henc, hpath, -⟩ := hall pe hpe
    rw [hpath]
    exact (hgood pe hpe).pathLen
  obtain ⟨cdBytes, hwcd, hcdlen, hfin⟩ := finalize_plain (P := P) hmodene hp255 nonceA
  have hopen : openWithKey ((finalHeader st).writeTo ++
      (st.body ++ (cdBytes ++ (finalEndRecord st).writeTo))) key = .ok
      { file := (finalHeader st).writeTo ++
          (st.body ++ (cdBytes ++ (finalEndRecord st).writeTo))
        header := finalHeader st, entries := [], entry_list := []
        encryption_mode := mode, decryption_key := key, decrypted_payload := none } := by
    rw [openWithKey, ArchiveReader.open,
      fileHeader_readFrom_writeTo _ _ (by norm_num [finalHeader, FORMAT_VERSION_MAJOR])
        (by norm_num [finalHeader, FORMAT_VERSION_MINOR])
        (by norm_num [finalHeader]) (by simp only [finalHeader]; omega)
        (by simp only [finalHeader]; omega)
        (by simp only [finalHeader]; exact Nat.mod_lt _ (by norm_num))
        (by norm_num [finalHeader])
        (by simp only [finalHeader]; exact EncryptionMode.toFlags_lt _)
        (by norm_num [finalHeader, FORMAT_VERSION_MAJOR])]
    dsimp only
    rw [FileHeader.validateVersion, if_neg (by norm_num [finalHeader, FORMAT_VERSION_MAJOR])]
    dsimp only
    have hem : (finalHeader st).encryptionMode = mode := by
      rw [FileHeader.encryptionMode]
      show EncryptionMode.fromFlags (finalHeader st).flags = mode
      rw [show (finalHeader st).flags = st.encryption_mode.toFlags from rfl, hm,
        EncryptionMode.fromFlags_toFlags]
    rw [hem]
    cases key with
    | none => rfl
    | some k => rfl
  have hb64 : 64 + st.body.length < 2 ^ 64 := by omega
  have hGE : ∀ e ∈ st.entries, GoodEntry e := by
    intro e he
    rw [hent] at he
    obtain ⟨pe, hpe, rfl⟩ := List.mem_map.mp he
    exact goodEntry_of_addedOK hP (hall pe hpe) (hgood pe hpe) hb64
  have hfl : ((finalHeader st).writeTo ++
      (st.body ++ (cdBytes ++ (finalEndRecord st).writeTo))).length =
      64 + st.body.length + 320 * st.entries.length + 64 := by
    simp only [List.length_append, fileHeader_writeTo_length, endRecord_writeTo_length,
      hcdlen]
    omega
  have hshape : (finalHeader st).writeTo ++
      (st.body ++ (cdBytes ++ (finalEndRecord st).writeTo)) =
      ((finalHeader st).writeTo ++ (st.body ++ cdBytes)) ++ (finalEndRecord st).writeTo := by
    simp [List.append_assoc]
  have hprelen : (((finalHeader st).writeTo ++ (st.body ++ cdBytes))).length =
      64 + st.body.length + 320 * st.entries.length := by
    simp only [List.length_append, fileHeader_writeTo_length, hcdlen]
    omega
  have hendr_drop : ((finalHeader st).writeTo ++
      (st.body ++ (cdBytes ++ (finalEndRecord st).writeTo))).drop
        (((finalHeader st).writeTo ++
          (st.body ++ (cdBytes ++ (finalEndRecord st).writeTo))).length - 64) =
      (finalEndRecord st).writeTo := by
    rw [hfl, hshape, show 64 + st.body.length + 320 * st.entries.length + 64 - 64 =
      64 + st.body.length + 320 * st.entries.length by omega, ← hprelen, List.drop_left]
  have hvend : validateEndRecord
      { file := (finalHeader st).writeTo ++
          (st.body ++ (cdBytes ++ (finalEndRecord st).writeTo))
        header := finalHeader st, entries := [], entry_list := []
        encryption_mode := mode, decryption_key := key
        decrypted_payload := none } = .ok () := by
    rw [validateEndRecord]
    dsimp only
    rw [if_neg (by rw [hfl]; rw [END_RECORD_SIZE]; omega)]
    rw [show (END_RECORD_SIZE : Nat) = 64 from rfl]
    rw [hendr_drop, show (finalEndRecord st).writeTo = (finalEndRecord st).writeTo ++ []
      by rw [List.append_nil]]
    rw [endRecord_readFrom_writeTo _ _ (by norm_num [finalEndRecord, FORMAT_VERSION_MAJOR])
      (by norm_num [finalEndRecord, FORMAT_VERSION_MINOR])
      (by simp only [finalEndRecord]; omega) (by simp only [finalEndRecord]; omega)
      (by simp only [finalEndRecord]; exact Nat.mod_lt _ (by norm_num))
      (by norm_num [finalEndRecord])]
    dsimp only
    simp [EndRecord.validateAgainstHeader, finalEndRecord, finalHeader]
  have hcdrop : ((finalHeader st).writeTo ++
      (st.body ++ (cdBytes ++ (finalEndRecord st).writeTo))).drop
        (finalHeader st).central_directory_offset =
      cdBytes ++ (finalEndRecord st).writeTo := by
    rw [show (finalHeader st).central_directory_offset = 64 + st.body.length from rfl,
      ← List.drop_drop, headerW_drop64, List.drop_left]
  have hrcd : readCentralDirectoryFromFile
      { file := (finalHeader st).writeTo ++
          (st.body ++ (cdBytes ++ (finalEndRecord st).writeTo))
        header := finalHeader st, entries := [], entry_list := []
        encryption_mode := mode, decryption_key := key
        decrypted_payload := none } = .ok
      { file := (finalHeader st).writeTo ++
          (st.body ++ (cdBytes ++ (finalEndRecord st).writeTo))
        header := finalHeader st, entries := st.entries
        entry_list := st.entries.map EntryInfo.path
        encryption_mode := mode, decryption_key := key
        decrypted_payload := none } := by
    rw [readCentralDirectoryFromFile]
    dsimp only
    rw [hcdrop, show (finalHeader st).entry_count = st.entries.length % 2 ^ 32 from rfl,
      Nat.mod_eq_of_lt hcnt, readCDRecords_roundtrip _ hGE hwcd]
  have hinit : initReader P
      { file := (finalHeader st).writeTo ++
          (st.body ++ (cdBytes ++ (finalEndRecord st).writeTo))
        header := finalHeader st, entries := [], entry_list := []
        encryption_mode := mode, decryption_key := key
        decrypted_payload := none } = .ok
      { file := (finalHeader st).writeTo ++
          (st.body ++ (cdBytes ++ (finalEndRecord st).writeTo))
        header := finalHeader st, entries := st.entries
        entry_list := st.entries.map EntryInfo.path
        encryption_mode := mode, decryption_key := key
        decrypted_payload := none } := by
    rcases hmode with rfl | rfl <;>
    · rw [initReader]
      dsimp only
      rw [hvend]
      dsimp only
      rw [hrcd]
  exact ⟨cdBytes, _, _, hwcd, hfin, hopen, hinit, rfl, rfl, rfl, rfl, rfl,
    headerW_drop64 _ _⟩

theorem pipeline_archive {P : Prims} (hP : PrimsOK P) {k : Nat} {st : WriterState}
    {pairs : List (EntryInfo × AddReq)} (hw : WriterOK P .archive (some k) st pairs)
    (hgood : ∀ pe ∈ pairs, GoodAdd pe.2)
    (hcnt : st.entries.length < 2 ^ 32)
    (hsz : 64 + st.body.length + 320 * st.entries.length + 64 < 2 ^ 64)
    {nonceA : List Nat} (hnA : nonceA.length = 12) :
    ∃ cdBytes file rd,
      writeCentralDirectory st.entries = .ok cdBytes ∧
      finalizeArchive P st nonceA = .ok file ∧
      openWithKey file (some k) = .ok
        { file := file, header := finalHeader st, entries := [], entry_list := []
          encryption_mode := .archive, decryption_key := some k
          decrypted_payload := none } ∧
      initReader P
        { file := file, header := finalHeader st, entries := [], entry_list := []
          encryption_mode := .archive, decryption_key := some k
          decrypted_payload := none } = .ok rd ∧
      rd.entries = st.entries ∧
      rd.encryption_mode = .archive ∧
      rd.decryption_key = some k ∧
      rd.decrypted_payload = some (st.body ++ cdBytes) := by
  obtain ⟨hm, hk, hent, hall⟩ := hw
  have hp255 : ∀ e ∈ st.entries, e.path.length ≤ 255 := by
    intro e he
    rw [hent] at he
    obtain ⟨pe, hpe, rfl⟩ := List.mem_map.mp he
    obtain ⟨cp, payload, lbs, rest0, hcd, henc, hpath, -⟩ := hall pe hpe
    rw [hpath]
    exact (hgood pe hpe).pathLen
  obtain ⟨cdBytes, hwcd, hcdlen, hfin⟩ := finalize_archive (P := P) hm hk hp255 nonceA
  have hb64 : 64 + st.body.length < 2 ^ 64 := by omega
  have hGE : ∀ e ∈ st.entries, GoodEntry e := by
    intro e he
    rw [hent] at he
    obtain ⟨pe, hpe, rfl⟩ := List.mem_map.mp he
    exact goodEntry_of_addedOK hP (hall pe hpe) (hgood pe hpe) hb64
  have hopen : openWithKey ((finalHeader st).writeTo ++
      ((nonceA ++ P.aeadEnc k nonceA (st.body ++ cdBytes)) ++
        (finalEndRecord st).writeTo)) (some k) = .ok
      { file := (finalHeader st).writeTo ++
          ((nonceA ++ P.aeadEnc k nonceA (st.body ++ cdBytes)) ++
            (finalEndRecord st).writeTo)
        header := finalHeader st, entries := [], entry_list := []
        encryption_mode := .archive, decryption_key := some k
        decrypted_payload := none } := by
    rw [openWithKey, ArchiveReader.open,
      fileHeader_readFrom_writeTo _ _ (by norm_num [finalHeader, FORMAT_VERSION_MAJOR])
        (by norm_num [finalHeader, FORMAT_VERSION_MINOR])
        (by norm_num [finalHeader]) (by simp only [finalHeader]; omega)
        (by simp only [finalHeader]; omega)
        (by simp only [finalHeader]; exact Nat.mod_lt _ (by norm_num))
        (by norm_num [finalHeader])
        (by simp only [finalHeader]; exact EncryptionMode.toFlags_lt _)
        (by norm_num [finalHeader, FORMAT_VERSION_MAJOR])]
    dsimp only
    rw [FileHeader.validateVersion, if_neg (by norm_num [finalHeader, FORMAT_VERSION_MAJOR])]
    dsimp only
    have hem : (finalHeader st).encryptionMode = .archive := by
      rw [FileHeader.encryptionMode]
      show EncryptionMode.fromFlags (finalHeader st).flags = .archive
      rw [show (finalHeader st).flags = st.encryption_mode.toFlags from rfl, hm,
        EncryptionMode.fromFlags_toFlags]
    rw [hem]
    rfl
  have hdec : decryptArchivePayload P
      { file := (finalHeader st).writeTo ++
          ((nonceA ++ P.aeadEnc k nonceA (st.body ++ cdBytes)) ++
            (finalEndRecord st).writeTo)
        header := finalHeader st, entries := [], entry_list := []
        encryption_mode := .archive, decryption_key := some k
        decrypted_payload := none } = .ok
      { file := (finalHeader st).writeTo ++
          ((nonceA ++ P.aeadEnc k nonceA (st.body ++ cdBytes)) ++
            (finalEndRecord st).writeTo)
        header := finalHeader st, entries := [], entry_list := []
        encryption_mode := .archive, decryption_key := some k
        decrypted_payload := some (st.body ++ cdBytes) } := by
    rw [decryptArchivePayload]
    dsimp only
    have hdrop64 : ((finalHeader st).writeTo ++
        ((nonceA ++ P.aeadEnc k nonceA (st.body ++ cdBytes)) ++
          (finalEndRecord st).writeTo)).drop 64 =
        nonceA ++ (P.aeadEnc k nonceA (st.body ++ cdBytes) ++
          (finalEndRecord st).writeTo) := by
      rw [headerW_drop64]
      simp [List.append_assoc]
    have hesz : ((finalHeader st).writeTo ++
        ((nonceA ++ P.aeadEnc k nonceA (st.body ++ cdBytes)) ++
          (finalEndRecord st).writeTo)).length - 64 - END_RECORD_SIZE - 12 =
        (P.aeadEnc k nonceA (st.body ++ cdBytes)).length := by
      simp only [List.length_append, fileHeader_writeTo_length, endRecord_writeTo_length,
        hnA, END_RECORD_SIZE]
      omega
    rw [hdrop64, pthen_ok (pBytes_append hnA)]
    rw [pthen_ok (p := pBytes _) (by rw [hesz]; exact pBytes_append rfl)]
    rw [ppure]
    dsimp only
    rw [hP.aeadRt]
  have hrcdm : readCentralDirectoryFromMemory
      { file := (finalHeader st).writeTo ++
          ((nonceA ++ P.aeadEnc k nonceA (st.body ++ cdBytes)) ++
            (finalEndRecord st).writeTo)
        header := finalHeader st, entries := [], entry_list := []
        encryption_mode := .archive, decryption_key := some k
        decrypted_payload := some (st.body ++ cdBytes) } = .ok
      { file := (finalHeader st).writeTo ++
          ((nonceA ++ P.aeadEnc k nonceA (st.body ++ cdBytes)) ++
            (finalEndRecord st).writeTo)
        header := finalHeader st, entries := st.entries
        entry_list := st.entries.map EntryInfo.path
        encryption_mode := .archive, decryption_key := some k
        decrypted_payload := some (st.body ++ cdBytes) } := by
    rw [readCentralDirectoryFromMemory]
    dsimp only
    rw [show (finalHeader st).central_directory_offset - 64 = st.body.length by
      show 64 + st.body.length - 64 = st.body.length; omega]
    rw [List.drop_left, show (finalHeader st).entry_count = st.entries.length % 2 ^ 32
      from rfl, Nat.mod_eq_of_lt hcnt]
    rw [show cdBytes = cdBytes ++ [] by rw [List.append_nil],
      readCDRecords_roundtrip _ hGE hwcd]
  have hinit : initReader P
      { file := (finalHeader st).writeTo ++
          ((nonceA ++ P.aeadEnc k nonceA (st.body ++ cdBytes)) ++
            (finalEndRecord st).writeTo)
        header := finalHeader st, entries := [], entry_list := []
        encryption_mode := .archive, decryption_key := some k
        decrypted_payload := none } = .ok
      { file := (finalHeader st).writeTo ++
          ((nonceA ++ P.aeadEnc k nonceA (st.body ++ cdBytes)) ++
            (finalEndRecord st).writeTo)
        header := finalHeader st, entries := st.entries
        entry_list := st.entries.map EntryInfo.path
        encryption_mode := .archive, decryption_key := some k
        decrypted_payload := some (st.body ++ cdBytes) } := by
    rw [initReader]
    dsimp only
    rw [hdec]
    dsimp only
    rw [hrcdm]
  exact ⟨cdBytes, _, _, hwcd, hfin, hopen, hinit, rfl, rfl, rfl, rfl⟩

/-- Reading back one entry in an archive-encrypted archive: lookups go
through the decrypted in-memory payload with 64-offset adjustment. -/
theorem readFileEntry_ok_archive {P : Prims} (hP : PrimsOK P) {key : Option Nat}
    {body tailM : List Nat} {rd : ReaderState} {e : EntryInfo} {a : AddReq}
    (hrdmode : rd.encryption_mode = .archive)
    (hga : GoodAdd a) (hadd : AddedOK P .archive key body e a)
    (hb64 : body.length < 2 ^ 64)
    (hpayload : rd.decrypted_payload = some (body ++ tailM))
    (hlook : cdLookup rd.entries (normalizePath a.path) = some e) :
    readFileEntry P rd e.path = .ok a.data := by
  obtain ⟨cp, payload, lbs, rest0, hcd, henc, hpath, husize, hcsize, hcrc, hmtime, hflags,
    hlw, hlbslen, hoff, hbound, hdrop⟩ := hadd
  have hpay : payload = cp := by
    rcases henc with ⟨hpf, -⟩ | ⟨-, hpay⟩
    · cases hpf
    · exact hpay
  subst hpay
  have hregion : (body ++ tailM).drop (e.data_offset - 64) =
      lbs ++ (payload ++ (rest0 ++ tailM)) := by
    rw [List.drop_append_of_le_length (by omega), hdrop]
    simp [List.append_assoc]
  have hloca : LocalEntryHeader.readFrom ((body ++ tailM).drop (e.data_offset - 64)) =
      .ok (LocalEntryHeader.new a.data.length payload.length (P.crc32 a.data) a.mtime
        e.compression (normalizePath a.path), payload ++ (rest0 ++ tailM)) := by
    rw [hregion]
    exact localEntry_readFrom_writeTo _
      (by simp only [LocalEntryHeader.new]; have := hga.pathLen; omega)
      (by simp only [LocalEntryHeader.new]; exact hga.pathUtf8)
      (by simp only [LocalEntryHeader.new]; have := hga.dataLen; norm_num at this ⊢; omega)
      (by simp only [LocalEntryHeader.new]; omega)
      (by simp only [LocalEntryHeader.new]; exact hP.crcLt a.data)
      (by simp only [LocalEntryHeader.new]; exact hga.mtimeLt)
      (by simp only [LocalEntryHeader.new]; norm_num) hlw
  have hval : validateLocalHeader
      (LocalEntryHeader.new a.data.length payload.length (P.crc32 a.data) a.mtime
        e.compression (normalizePath a.path)) e = .ok () := by
    simp [validateLocalHeader, LocalEntryHeader.new, hpath, husize, hcsize, hcrc]
  have hhs : (LocalEntryHeader.new a.data.length payload.length (P.crc32 a.data) a.mtime
      e.compression (normalizePath a.path)).headerSize = lbs.length := by
    rw [LocalEntryHeader.headerSize, hlbslen]
    simp only [LocalEntryHeader.new]
  have hraw : readRawData rd e = .ok payload := by
    rw [readRawData.eq_def, hrdmode]
    dsimp only
    rw [hpayload]
    dsimp only
    rw [hloca]
    dsimp only
    rw [hval]
    dsimp only
    rw [hhs, ← List.drop_drop, hregion, List.drop_left, hcsize]
    rw [show payload ++ (rest0 ++ tailM) = payload ++ (rest0 ++ tailM) from rfl]
    rw [show (payload ++ (rest0 ++ tailM)).take payload.length = payload from
      List.take_left _ _]
  rw [readFileEntry, hpath, normalizePath_idem, hlook]
  dsimp only [Option.orElse]
  rw [hraw]
  dsimp only
  rw [if_neg (by rw [hrdmode]; simp)]
  dsimp only
  rw [husize, decode_of_compressData hP hga.dataLen hcd]
  dsimp only
  rw [hcrc, if_neg (by simp)]

/-- With pairwise-distinct paths the HashMap lookup returns each record. -/
theorem cdLookup_of_nodup {entries : List EntryInfo}
    (hnd : (entries.map EntryInfo.path).Nodup) {e : EntryInfo} (he : e ∈ entries) :
    cdLookup entries e.path = some e := by
  induction entries with
  | nil => cases he
  | cons x rest ih =>
    rw [List.map_cons, List.nodup_cons] at hnd
    rw [cdLookup, List.filter_cons]
    rcases List.mem_cons.mp he with rfl | hrest
    · rw [if_pos (by simp)]
      have hnil : rest.filter (fun b => b.path = e.path) = [] := by
        rw [List.filter_eq_nil_iff]
        intro b hb hbe
        exact hnd.1 (by
          rw [← (by simpa using hbe : b.path = e.path)]
          exact List.mem_map_of_mem _ hb)
      rw [hnil]
      rfl
    · rw [if_neg (by
        simp only [decide_eq_true_eq]
        intro hxe
        exact hnd.1 (hxe ▸ List.mem_map_of_mem _ hrest))]
      exact ih hnd.2 hrest

/-! ## Claim theorems -/

/-- C1: Writer-then-reader round-trip identity: for every sequence of
entries added with `add_file_with_compression` (each with a valid path and
byte string, paths distinct after normalization) followed by `finalize`, a
reader that opens the resulting archive, supplies the same key when
encryption was enabled, and calls `initialize`, has
`read_file(normalize(p))` return exactly the added bytes for every entry —
in all three encryption modes, assuming the codec/AEAD/CRC contracts of the
external primitives. -/
theorem c1_writer_reader_roundtrip {P : Prims} (hP : PrimsOK P)
    {st0 : WriterState}
    (hcfg : st0 = WriterState.create ∨
      (∃ k, st0 = WriterState.create.withArchiveEncryption k) ∨
      (∃ k, st0 = WriterState.create.withPerFileEncryption k))
    {adds : List AddReq} (hgood : ∀ a ∈ adds, GoodAdd a)
    (hnd : (adds.map fun a => normalizePath a.path).Nodup)
    (hcnt : adds.length < 2 ^ 32)
    (hsz : ∀ st, runAdds P st0 adds = .ok st →
      64 + st.body.length + 320 * adds.length + 64 < 2 ^ 64)
    {nonceA : List Nat} (hnA : nonceA.length = 12) :
    ∃ st file rdPre rd,
      runAdds P st0 adds = .ok st ∧
      finalizeArchive P st nonceA = .ok file ∧
      openWithKey file st0.encryption_key = .ok rdPre ∧
      initReader P rdPre = .ok rd ∧
      ∀ a ∈ adds, readFileEntry P rd (normalizePath a.path) = .ok a.data := by
  have hfacts : st0.body = [] ∧ st0.entries = [] ∧
      (st0.encryption_mode = .perFile → ∃ k, st0.encryption_key = some k) := by
    rcases hcfg with rfl | ⟨k0, rfl⟩ | ⟨k0, rfl⟩ <;>
      simp [WriterState.create, WriterState.withArchiveEncryption,
        WriterState.withPerFileEncryption]
  obtain ⟨hb0, he0, hkey⟩ := hfacts
  have hw0 : WriterOK P st0.encryption_mode st0.encryption_key st0 [] :=
    ⟨rfl, rfl, by rw [he0]; rfl, by simp⟩
  obtain ⟨st, pairs, hrun, hwok, hmap⟩ := runAdds_ok hkey hgood hw0
  rw [List.nil_append] at hwok
  have hplen : pairs.length = adds.length := by rw [← hmap, List.length_map]
  have hentlen : st.entries.length = adds.length := by
    rw [hwok.2.2.1, List.length_map, hplen]
  have hsz' := hsz st hrun
  have hcnt' : st.entries.length < 2 ^ 32 := by rw [hentlen]; exact hcnt
  have hsz'' : 64 + st.body.length + 320 * st.entries.length + 64 < 2 ^ 64 := by
    rw [hentlen]; exact hsz'
  have hb64 : st.body.length < 2 ^ 64 := by
    have := hsz''
    omega
  have hgoodp : ∀ pe ∈ pairs, GoodAdd pe.2 := fun pe hpe =>
    hgood pe.2 (hmap ▸ List.mem_map_of_mem Prod.snd hpe)
  have hndent : (st.entries.map EntryInfo.path).Nodup := by
    rw [hwok.2.2.1, List.map_map]
    have h1 : pairs.map (EntryInfo.path ∘ Prod.fst) =
        pairs.map fun pe => normalizePath pe.2.path :=
      List.map_congr_left fun pe hpe => by
        obtain ⟨cp, payload, lbs, rest0, hcd, henc, hpath, -⟩ := hwok.2.2.2 pe hpe
        exact hpath
    have h2 : (pairs.map fun pe => normalizePath pe.2.path) =
        (pairs.map Prod.snd).map fun a => normalizePath a.path := by
      rw [List.map_map]
      rfl
    rw [h1, h2, hmap]
    exact hnd
  have hmem : ∀ a ∈ adds, ∃ pe ∈ pairs, pe.2 = a := by
    intro a ha
    rw [← hmap] at ha
    obtain ⟨pe, hpe, hpe2⟩ := List.mem_map.mp ha
    exact ⟨pe, hpe, hpe2⟩
  by_cases hmarch : st0.encryption_mode = .archive
  · rcases hcfg with rfl | ⟨k0, rfl⟩ | ⟨k0, rfl⟩
    · simp [WriterState.create] at hmarch
    · obtain ⟨cdBytes, file, rd, hwcd, hfin, hopen, hinit, hrdent, hrdmode, hrdkey,
        hrdpayload⟩ := pipeline_archive hP hwok hgoodp hcnt' hsz'' hnA
      refine ⟨st, file, _, rd, hrun, hfin, hopen, hinit, ?_⟩
      intro a ha
      obtain ⟨pe, hpe, rfl⟩ := hmem a ha
      have hadd := hwok.2.2.2 pe hpe
      have hpath : pe.1.path = normalizePath pe.2.path := by
        obtain ⟨cp, payload, lbs, rest0, hcd, henc, hpath, -⟩ := hadd
        exact hpath
      have hlook : cdLookup rd.entries (normalizePath pe.2.path) = some pe.1 := by
        rw [hrdent, ← hpath]
        exact cdLookup_of_nodup hndent (by
          rw [hwok.2.2.1]
          exact List.mem_map_of_mem Prod.fst hpe)
      have := readFileEntry_ok_archive hP hrdmode (hgoodp pe hpe) hadd hb64
        (by rw [hrdpayload]) hlook
      rw [hpath] at this
      exact this
    · simp [WriterState.create, WriterState.withPerFileEncryption] at hmarch
  · have hmode2 : st0.encryption_mode = .none ∨ st0.encryption_mode = .perFile := by
      cases hm : st0.encryption_mode with
      | none => exact Or.inl rfl
      | archive => exact absurd hm hmarch
      | perFile => exact Or.inr rfl
    obtain ⟨cdBytes, file, rd, hwcd, hfin, hopen, hinit, hrdent, hrdmode, hrdkey,
      hrdpayload, hrdfile, hfdrop⟩ := pipeline_plain hP hwok hmode2 hgoodp hcnt' hsz''
      nonceA
    refine ⟨st, file, _, rd, hrun, hfin, hopen, hinit, ?_⟩
    intro a ha
    obtain ⟨pe, hpe, rfl⟩ := hmem a ha
    have hadd := hwok.2.2.2 pe hpe
    have hpath : pe.1.path = normalizePath pe.2.path := by
      obtain ⟨cp, payload, lbs, rest0, hcd, henc, hpath, -⟩ := hadd
      exact hpath
    have hlook : cdLookup rd.entries (normalizePath pe.2.path) = some pe.1 := by
      rw [hrdent, ← hpath]
      exact cdLookup_of_nodup hndent (by
        rw [hwok.2.2.1]
        exact List.mem_map_of_mem Prod.fst hpe)
    have := readFileEntry_ok_plain hP hmode2 hrdmode hrdkey (hgoodp pe hpe) hadd hb64
      (by rw [hrdfile, hfdrop]) hlook
    rw [hpath] at this
    exact this

/-- Witness for C1 at a concrete input: one entry `"a" ↦ "hi"`, no
encryption, the toy primitives. -/
theorem c1_writer_reader_roundtrip_witness :
    (List.map (fun a => normalizePath a.path)
      [(⟨[97], [104, 105], .none, 5, List.replicate 12 0⟩ : AddReq)]).Nodup ∧
    ∃ st file rdPre rd,
      runAdds toyPrims WriterState.create
        [(⟨[97], [104, 105], .none, 5, List.replicate 12 0⟩ : AddReq)] = .ok st ∧
      finalizeArchive toyPrims st (List.replicate 12 0) = .ok file ∧
      openWithKey file WriterState.create.encryption_key = .ok rdPre ∧
      initReader toyPrims rdPre = .ok rd ∧
      ∀ a ∈ [(⟨[97], [104, 105], .none, 5, List.replicate 12 0⟩ : AddReq)],
        readFileEntry toyPrims rd (normalizePath a.path) = .ok a.data :=
  ⟨by decide,
    c1_writer_reader_roundtrip toyPrims_ok (Or.inl rfl)
      (by
        intro a ha
        rw [List.mem_singleton] at ha
        subst ha
        exact ⟨by decide, by decide, by decide, by decide, by decide⟩)
      (by decide) (by decide)
      (by
        intro st hst
        have hmatch : (match runAdds toyPrims WriterState.create
            [(⟨[97], [104, 105], .none, 5, List.replicate 12 0⟩ : AddReq)] with
          | Except.ok st2 => decide (64 + st2.body.length + 320 * 1 + 64 < 2 ^ 64)
          | Except.error _ => true) = true := by decide
        rw [hst] at hmatch
        simp only [decide_eq_true_eq] at hmatch
        simpa using hmatch)
      (by decide)⟩

/-- C2 (counterexample): a LOCA header and a central-directory record that
agree on path, sizes, CRC-32 and compression method but disagree in the
modification timestamp pass `validate_local_header` — the claim that a
timestamp-only disagreement invalidates the read is false. -/
theorem c2_mtime_not_checked_counterexample :
    (LocalEntryHeader.new 3 3 7 111 .none [97]).modified_time ≠
      ({ path := [97], data_offset := 64, uncompressed_size := 3, compressed_size := 3
         crc32 := 7, modified_time := 222, compression := .none, flags := 0 }
        : EntryInfo).modified_time ∧
    validateLocalHeader (LocalEntryHeader.new 3 3 7 111 .none [97])
      { path := [97], data_offset := 64, uncompressed_size := 3, compressed_size := 3
        crc32 := 7, modified_time := 222, compression := .none, flags := 0 } = .ok () :=
  ⟨by decide, rfl⟩

/-- C2 (amended): `validate_local_header` fails with `InvalidStructure`
exactly when the LOCA header disagrees with the central-directory record in
path, uncompressed size, compressed size, CRC-32 or compression method; the
modification timestamp is not compared. -/
theorem c2_validate_local_header (l : LocalEntryHeader) (c : EntryInfo) :
    validateLocalHeader l c =
      (if l.path = c.path ∧ l.uncompressed_size = c.uncompressed_size ∧
          l.compressed_size = c.compressed_size ∧ l.crc32 = c.crc32 ∧
          l.compression = c.compression
        then .ok () else .error .invalidFormat) := by
  by_cases h1 : l.path = c.path <;>
    by_cases h2 : l.uncompressed_size = c.uncompressed_size <;>
    by_cases h3 : l.compressed_size = c.compressed_size <;>
    by_cases h4 : l.crc32 = c.crc32 <;>
    by_cases h5 : l.compression = c.compression <;>
  simp [validateLocalHeader, h1, h2, h3, h4, h5]

/-- C7: effective-method rule in regular (non-framed) mode: the compressor
output is stored with the forced method iff it is strictly smaller than the
input; otherwise the input is stored uncompressed and the recorded method
is `None`. -/
theorem c7_effective_method (P : Prims) (data : List Nat)
    (hsize : data.length < 52428800) (m : CompressionMethod) (comp : List Nat)
    (hm : (m = .lz4 ∧ comp = P.lz4Comp data) ∨ (m = .zstd ∧ comp = P.zstdComp data)) :
    compressData P data m =
      .ok (if comp.length < data.length then (comp, m) else (data, .none)) := by
  have hf : ¬ (shouldUseFrames data.length = true) := by
    simp [shouldUseFrames, MIN_FRAME_COMPRESSION_SIZE]
    omega
  rcases hm with ⟨rfl, rfl⟩ | ⟨rfl, rfl⟩ <;>
  · rw [compressData.eq_def, if_neg hf]

/-- Witness for C7: with the identity codec on a 2-byte input the output is
not strictly smaller, so the entry is stored uncompressed with method
`None`. -/
theorem c7_effective_method_witness :
    ([0, 1] : List Nat).length < 52428800 ∧
    compressData toyPrims [0, 1] .lz4 =
      .ok (if (toyPrims.lz4Comp [0, 1]).length < ([0, 1] : List Nat).length
        then (toyPrims.lz4Comp [0, 1], .lz4) else ([0, 1], .none)) :=
  ⟨by decide, c7_effective_method toyPrims [0, 1] (by decide) .lz4 _ (Or.inl ⟨rfl, rfl⟩)⟩

/-- C8 (counterexample): a 4096-byte `.db` entry is routed to `Zstd`, not
`Lz4` as the claim states. -/
theorem c8_db_is_zstd_counterexample :
    selectCompression [97, 46, 100, 98] 4096 = .zstd ∧
    selectCompression [97, 46, 100, 98] 4096 ≠ .lz4 := by
  exact ⟨rfl, by decide⟩

/-- C8 (amended): entries below 4096 bytes choose `None`; at ≥ 4096 bytes a
lowercase `.db`/`.sqlite`/`.sqlite3` suffix chooses `Zstd` and `.wasm`
falls through to the `Lz4` default. -/
theorem c8_select_compression (path : List Nat) (size : Nat) :
    (size < 4096 → selectCompression path size = .none) ∧
    (4096 ≤ size →
      extLower path ∈ [[100, 98], [115, 113, 108, 105, 116, 101],
        [115, 113, 108, 105, 116, 101, 51]] →
      selectCompression path size = .zstd) ∧
    (4096 ≤ size → extLower path = [119, 97, 115, 109] →
      selectCompression path size = .lz4) := by
  refine ⟨?_, ?_, ?_⟩
  · intro h
    rw [selectCompression, if_pos (by rw [MIN_COMPRESSION_SIZE]; omega)]
  · intro hs hmem
    rw [selectCompression, if_neg (by rw [MIN_COMPRESSION_SIZE]; omega)]
    dsimp only
    simp only [List.mem_cons, List.not_mem_nil, or_false] at hmem
    rcases hmem with hq | hq | hq <;>
    · rw [hq]
      decide
  · intro hs hq
    rw [selectCompression, if_neg (by rw [MIN_COMPRESSION_SIZE]; omega)]
    dsimp only
    rw [hq]
    decide

/-- Witness for C8: `a.db` at 4096 → Zstd, `a.wasm` at 4096 → Lz4,
`a.txt` at 100 bytes → None. -/
theorem c8_select_compression_witness :
    selectCompression [97, 46, 100, 98] 4096 = .zstd ∧
    selectCompression [97, 46, 119, 97, 115, 109] 4096 = .lz4 ∧
    selectCompression [97, 46, 116, 120, 116] 100 = .none :=
  ⟨(c8_select_compression [97, 46, 100, 98] 4096).2.1 (by decide) (by decide),
    (c8_select_compression [97, 46, 119, 97, 115, 109] 4096).2.2 (by decide) (by decide),
    (c8_select_compression [97, 46, 116, 120, 116] 100).1 (by decide)⟩

set_option maxRecDepth 8192 in
/-- C4 (counterexample): `add_file_with_compression` accepts an empty path,
a path containing a NUL byte, and a 300-byte path — none of the claimed
write-time rejections happens at the add call. -/
theorem c4_no_add_time_validation_counterexample :
    (∃ st, addFileWithCompression toyPrims WriterState.create [] [] .none 0 [] = .ok st) ∧
    (∃ st, addFileWithCompression toyPrims WriterState.create [0] [] .none 0 [] = .ok st) ∧
    (∃ st, addFileWithCompression toyPrims WriterState.create (List.replicate 300 97) []
      .none 0 [] = .ok st) :=
  ⟨⟨_, rfl⟩, ⟨_, rfl⟩, ⟨_, rfl⟩⟩

/-- C4 (amended): the add call itself validates nothing about the path
except the `u16::MAX` LOCA limit: any path whose normalized form is at most
65535 bytes — empty and NUL-containing paths included — is accepted, and a
longer one fails with `PathError`; a path longer than 255 bytes is rejected
only later, at `finalize`, when writing its central-directory record fails
with `PathError`. -/
theorem c4_path_validation :
    (∀ (P : Prims) (st : WriterState) (path data : List Nat) (c : CompressionMethod)
      (mtime : Nat) (nonce : List Nat), st.encryption_mode ≠ .perFile →
      ((normalizePath path).length ≤ 65535 →
        ∃ st1, addFileWithCompression P st path data c mtime nonce = .ok st1) ∧
      (65535 < (normalizePath path).length →
        addFileWithCompression P st path data c mtime nonce = .error .pathError)) ∧
    (∀ (P : Prims) (st : WriterState) (nonceA : List Nat),
      (∃ e ∈ st.entries, 255 < e.path.length) →
      finalizeArchive P st nonceA = .error .pathError) := by
  constructor
  · intro P st path data c mtime nonce hmode
    constructor
    · intro hle
      obtain ⟨cp, actual, payload, lbs, hcd, henc, hlbs, hstep⟩ :=
        @addFile_step P st
          ⟨path, data, c, mtime, nonce⟩ (fun hpf => absurd hpf hmode) hle
      exact ⟨_, hstep⟩
    · intro hgt
      obtain ⟨cp, actual, hcd⟩ := compressData_isOk P data c
      rw [addFileWithCompression, hcd]
      dsimp only
      rw [if_neg hmode]
      dsimp only
      rw [LocalEntryHeader.writeTo.eq_def, if_pos (by simp [LocalEntryHeader.new]; omega)]
  · have hwcd : ∀ es : List EntryInfo, (∃ e ∈ es, 255 < e.path.length) →
        writeCentralDirectory es = .error .pathError := by
      intro es
      induction es with
      | nil =>
        rintro ⟨e, he, -⟩
        cases he
      | cons x rest ih =>
        rintro ⟨e, he, hlen⟩
        by_cases hx : 255 < x.path.length
        · rw [writeCentralDirectory, EntryInfo.writeTo.eq_def,
            if_pos (by rw [MAX_PATH_LENGTH]; omega)]
        · rcases List.mem_cons.mp he with rfl | hrest
          · exact absurd hlen hx
          · obtain ⟨bs0, hbs0, -⟩ := entryInfo_writeTo_ok (e := x) (by omega)
            rw [writeCentralDirectory, hbs0, ih ⟨e, hrest, hlen⟩]
    intro P st nonceA hex
    rw [finalizeArchive, hwcd st.entries hex]

/-- Witness for C4: a 1-byte path is accepted at add time; finalizing a
state holding a 256-byte path fails with `PathError`. -/
theorem c4_path_validation_witness :
    (∃ st1, addFileWithCompression toyPrims WriterState.create [98] [] .none 0 [] =
      .ok st1) ∧
    finalizeArchive toyPrims
      (⟨[], [(⟨List.replicate 256 97, 64, 0, 0, 0, 0, .none, 0⟩ : EntryInfo)],
        .none, none⟩ : WriterState) [] = .error .pathError :=
  ⟨(c4_path_validation.1 toyPrims WriterState.create [98] [] .none 0 [] (by decide)).1
      (by decide),
    c4_path_validation.2 toyPrims
      (⟨[], [(⟨List.replicate 256 97, 64, 0, 0, 0, 0, .none, 0⟩ : EntryInfo)],
        .none, none⟩ : WriterState) []
      ⟨_, List.mem_singleton.mpr rfl, by norm_num [List.length_replicate]⟩⟩

/-- When `compress_data` records method `None`, the stored bytes are the
input itself (both the `None` branch and the not-smaller fallback copy
`data`). -/
theorem compressData_none_eq {P : Prims} {d : List Nat} {c : CompressionMethod}
    {cp : List Nat} (h : compressData P d c = .ok (cp, .none)) : cp = d := by
  rw [compressData.eq_def] at h
  by_cases hf : shouldUseFrames d.length
  · rw [if_pos hf] at h
    cases c with
    | none =>
      cases h
      rfl
    | lz4 =>
      cases hout : compressFrames P d .lz4 with
      | error er => rw [hout] at h; cases h
      | ok out => rw [hout] at h; cases h
    | zstd =>
      cases hout : compressFrames P d .zstd with
      | error er => rw [hout] at h; cases h
      | ok out => rw [hout] at h; cases h
  · rw [if_neg hf] at h
    cases c with
    | none =>
      cases h
      rfl
    | lz4 =>
      dsimp only at h
      by_cases hlt : (P.lz4Comp d).length < d.length
      · rw [if_pos hlt] at h
        cases h
      · rw [if_neg hlt] at h
        cases h
        rfl
    | zstd =>
      dsimp only at h
      by_cases hlt : (P.zstdComp d).length < d.length
      · rw [if_pos hlt] at h
        cases h
      · rw [if_neg hlt] at h
        cases h
        rfl

/-- C3 (counterexample): with per-entry encryption, an entry stored with
method `None` and far below the framing threshold has
`compressed_size = uncompressed_size + 28` (nonce and AEAD tag), not
`compressed_size = uncompressed_size`. -/
theorem c3_per_entry_none_size_counterexample :
    ∃ st, addFileWithCompression toyPrims (WriterState.create.withPerFileEncryption 1)
        [97] [5] .none 0 (List.replicate 12 0) = .ok st ∧
      ∃ e, st.entries = [e] ∧ e.compression = .none ∧
        shouldUseFrames e.uncompressed_size = false ∧
        e.compressed_size ≠ e.uncompressed_size ∧
        e.compressed_size = e.uncompressed_size + 28 :=
  ⟨_, rfl, _, rfl, by decide, by decide, by decide, by decide⟩

/-- C3 (amended): in a writer run, every entry stored with method `None`
and not framed has `compressed_size = uncompressed_size` when the writer is
unencrypted or archive-encrypted, and
`compressed_size = uncompressed_size + 28` under per-entry encryption. -/
theorem c3_stored_none_size {P : Prims} (hP : PrimsOK P)
    {st0 : WriterState}
    (hcfg : st0 = WriterState.create ∨
      (∃ k, st0 = WriterState.create.withArchiveEncryption k) ∨
      (∃ k, st0 = WriterState.create.withPerFileEncryption k))
    {adds : List AddReq} (hgood : ∀ a ∈ adds, GoodAdd a) :
    ∃ st, runAdds P st0 adds = .ok st ∧ st.encryption_mode = st0.encryption_mode ∧
      ∀ e ∈ st.entries, e.compression = .none →
        shouldUseFrames e.uncompressed_size = false →
        e.compressed_size = e.uncompressed_size +
          (if st.encryption_mode = .perFile then 28 else 0) := by
  have hfacts : st0.body = [] ∧ st0.entries = [] ∧
      (st0.encryption_mode = .perFile → ∃ k, st0.encryption_key = some k) := by
    rcases hcfg with rfl | ⟨k0, rfl⟩ | ⟨k0, rfl⟩ <;>
      simp [WriterState.create, WriterState.withArchiveEncryption,
        WriterState.withPerFileEncryption]
  obtain ⟨hb0, he0, hkey⟩ := hfacts
  have hw0 : WriterOK P st0.encryption_mode st0.encryption_key st0 [] :=
    ⟨rfl, rfl, by rw [he0]; rfl, by simp⟩
  obtain ⟨st, pairs, hrun, hwok, hmap⟩ := runAdds_ok hkey hgood hw0
  rw [List.nil_append] at hwok
  refine ⟨st, hrun, hwok.1 ▸ rfl, ?_⟩
  intro e he hcompnone hframes
  rw [hwok.2.2.1] at he
  obtain ⟨pe, hpe, rfl⟩ := List.mem_map.mp he
  obtain ⟨cp, payload, lbs, rest0, hcd, henc, hpath, husize, hcsize, hcrc, hmtime, hflags,
    hlw, hlbslen, hoff, hbound, hdrop⟩ := hwok.2.2.2 pe hpe
  have hcpd : cp = pe.2.data := compressData_none_eq (hcompnone ▸ hcd)
  have hmodeeq : st.encryption_mode = st0.encryption_mode := hwok.1 ▸ rfl
  rcases henc with ⟨hpf, k, hkk, hpay⟩ | ⟨hpf, hpay⟩
  · rw [hcsize, hpay, husize, List.length_append, hP.aeadLen, hcpd,
      (hgood pe.2 (hmap ▸ List.mem_map_of_mem Prod.snd hpe)).nonceLen,
      if_pos (hmodeeq ▸ hpf)]
    omega
  · rw [hcsize, hpay, hcpd, husize, if_neg (fun hc => hpf (hmodeeq ▸ hc))]
    omega

/-- Witness for C3: one `None`-method entry under per-entry encryption with
key 1; its stored size is its length plus 28. -/
theorem c3_stored_none_size_witness :
    ∃ st, runAdds toyPrims (WriterState.create.withPerFileEncryption 1)
        [(⟨[97], [5], .none, 0, List.replicate 12 0⟩ : AddReq)] = .ok st ∧
      st.encryption_mode = (WriterState.create.withPerFileEncryption 1).encryption_mode ∧
      ∀ e ∈ st.entries, e.compression = .none →
        shouldUseFrames e.uncompressed_size = false →
        e.compressed_size = e.uncompressed_size +
          (if st.encryption_mode = .perFile then 28 else 0) :=
  c3_stored_none_size toyPrims_ok (Or.inr (Or.inr ⟨1, rfl⟩))
    (by
      intro a ha
      rw [List.mem_singleton] at ha
      subst ha
      exact ⟨by decide, by decide, by decide, by decide, by decide⟩)

theorem compressFramesAux_frameBody {P : Prims} {m : CompressionMethod}
    {comp : List Nat → List Nat}
    (hm : (m = .lz4 ∧ comp = P.lz4Comp) ∨ (m = .zstd ∧ comp = P.zstdComp))
    (d : List Nat) : ∀ k idx, compressFramesAux P m d idx k = .ok (frameBody comp d idx k) := by
  intro k
  induction k with
  | zero =>
    intro idx
    rfl
  | succ k ih =>
    intro idx
    rcases hm with ⟨rfl, rfl⟩ | ⟨rfl, rfl⟩ <;>
    · rw [compressFramesAux, frameComp, ih, frameBody]

/-- C5: framed-compression round-trip and payload layout: for inputs of at
least 50 MiB compressed with Lz4 or Zstd, the payload is the frame count as
a little-endian u32 followed by that many (size, bytes) chunks, each chunk
compressing at most 65536 input bytes, and decompression restores the input
exactly (under the codec round-trip and u32-size contracts). -/
theorem c5_framed_roundtrip {P : Prims} (hP : PrimsOK P) {d : List Nat}
    {m : CompressionMethod} {comp : List Nat → List Nat}
    (hm : (m = .lz4 ∧ comp = P.lz4Comp) ∨ (m = .zstd ∧ comp = P.zstdComp))
    (hmin : 52428800 ≤ d.length) (h47 : d.length < 2 ^ 47) :
    compressFrames P d m = .ok
      (leBytes 4 (((d.length + (FRAME_SIZE - 1)) / FRAME_SIZE) % 2 ^ 32) ++
        frameBody comp d 0 ((d.length + (FRAME_SIZE - 1)) / FRAME_SIZE)) ∧
    (∀ idx, ((d.drop (idx * FRAME_SIZE)).take FRAME_SIZE).length ≤ 65536) ∧
    decompressFrames P
      (leBytes 4 (((d.length + (FRAME_SIZE - 1)) / FRAME_SIZE) % 2 ^ 32) ++
        frameBody comp d 0 ((d.length + (FRAME_SIZE - 1)) / FRAME_SIZE)) m d.length =
      .ok d := by
  have hcf : compressFrames P d m = .ok
      (leBytes 4 (((d.length + (FRAME_SIZE - 1)) / FRAME_SIZE) % 2 ^ 32) ++
        frameBody comp d 0 ((d.length + (FRAME_SIZE - 1)) / FRAME_SIZE)) := by
    rw [compressFrames, if_neg (by rw [MIN_FRAME_COMPRESSION_SIZE]; omega),
      compressFramesAux_frameBody hm d]
  refine ⟨hcf, ?_, ?_⟩
  · intro idx
    simp only [List.length_take, FRAME_SIZE]
    omega
  · exact decompressFrames_compressFrames hP
      (by rcases hm with ⟨rfl, -⟩ | ⟨rfl, -⟩ <;> simp) hmin h47 hcf

/-- Witness for C5: a 50 MiB zero buffer with the identity codec. -/
theorem c5_framed_roundtrip_witness :
    52428800 ≤ (List.replicate 52428800 0 : List Nat).length ∧
    (compressFrames toyPrims (List.replicate 52428800 0) .lz4 = .ok
      (leBytes 4 ((((List.replicate 52428800 0 : List Nat).length + (FRAME_SIZE - 1)) /
          FRAME_SIZE) % 2 ^ 32) ++
        frameBody toyPrims.lz4Comp (List.replicate 52428800 0) 0
          (((List.replicate 52428800 0 : List Nat).length + (FRAME_SIZE - 1)) /
            FRAME_SIZE)) ∧
    (∀ idx, (((List.replicate 52428800 0 : List Nat).drop
        (idx * FRAME_SIZE)).take FRAME_SIZE).length ≤ 65536) ∧
    decompressFrames toyPrims
      (leBytes 4 ((((List.replicate 52428800 0 : List Nat).length + (FRAME_SIZE - 1)) /
          FRAME_SIZE) % 2 ^ 32) ++
        frameBody toyPrims.lz4Comp (List.replicate 52428800 0) 0
          (((List.replicate 52428800 0 : List Nat).length + (FRAME_SIZE - 1)) /
            FRAME_SIZE)) .lz4 (List.replicate 52428800 0 : List Nat).length =
      .ok (List.replicate 52428800 0)) :=
  ⟨by simp only [List.length_replicate, le_refl],
    c5_framed_roundtrip toyPrims_ok (Or.inl ⟨rfl, rfl⟩)
      (by simp only [List.length_replicate, le_refl])
      (by simp only [List.length_replicate]; norm_num)⟩

theorem finalizeArchive_shape {P : Prims} {st : WriterState} {nonceA file : List Nat}
    (h : finalizeArchive P st nonceA = .ok file) :
    ∃ mid, file = ((finalHeader st).writeTo ++ mid) ++ (finalEndRecord st).writeTo := by
  rw [finalizeArchive] at h
  cases hwcd : writeCentralDirectory st.entries with
  | error e =>
    rw [hwcd] at h
    cases h
  | ok cdBytes =>
    rw [hwcd] at h
    dsimp only at h
    have hhdr : FileHeader.setEncryptionMode
        { FileHeader.new with
          central_directory_offset := 64 + st.body.length
          central_directory_size :=
            64 + st.body.length - (64 + st.body.length) + st.entries.length * 320
          entry_count := st.entries.length % 2 ^ 32 } st.encryption_mode = finalHeader st := by
      simp [FileHeader.setEncryptionMode, FileHeader.new, finalHeader]
    have hendr : EndRecord.new FORMAT_VERSION_MAJOR FORMAT_VERSION_MINOR
        (64 + st.body.length)
        (64 + st.body.length - (64 + st.body.length) + st.entries.length * 320)
        (st.entries.length % 2 ^ 32) 0 = finalEndRecord st := by
      simp [EndRecord.new, finalEndRecord]
    by_cases hm : st.encryption_mode = .archive
    · rw [if_pos hm] at h
      cases hk : st.encryption_key with
      | none =>
        rw [hk] at h
        cases h
      | some k =>
        rw [hk] at h
        dsimp only at h
        rw [hhdr, hendr] at h
        injection h with h
        exact ⟨_, h.symm⟩
    · rw [if_neg hm] at h
      dsimp only at h
      rw [hhdr, hendr] at h
      injection h with h
      exact ⟨_, h.symm⟩

/-- C6: (i) every file produced by `finalize` ends in the 64-byte end record,
which starts with the "ENDR" signature and whose version, central-directory
offset/size and entry count equal the header's, the size being
entry_count · 320; (ii) `validate_against_header` accepts exactly when all
five duplicated fields agree, failing with InvalidStructure otherwise;
(iii) `validate_end_record` returns exactly that verdict on the parsed last
64 bytes; (iv) in the unencrypted and per-entry modes `initialize`
propagates a `validate_end_record` failure. -/
theorem c6_end_record :
    (∀ (P : Prims) (st : WriterState) (nonceA file : List Nat),
      finalizeArchive P st nonceA = .ok file →
      st.entries.length < 2 ^ 32 →
      file.drop (file.length - 64) = (finalEndRecord st).writeTo ∧
      (finalEndRecord st).writeTo.length = 64 ∧
      ((finalEndRecord st).writeTo).take 4 = END_RECORD_SIGNATURE ∧
      (finalEndRecord st).version_major = (finalHeader st).version_major ∧
      (finalEndRecord st).version_minor = (finalHeader st).version_minor ∧
      (finalEndRecord st).central_directory_offset =
        (finalHeader st).central_directory_offset ∧
      (finalEndRecord st).central_directory_size =
        (finalHeader st).central_directory_size ∧
      (finalEndRecord st).entry_count = (finalHeader st).entry_count ∧
      (finalEndRecord st).central_directory_size = (finalHeader st).entry_count * 320) ∧
    (∀ (e : EndRecord) (a b c d n : Nat),
      e.validateAgainstHeader a b c d n =
        if e.version_major = a ∧ e.version_minor = b ∧
            e.central_directory_offset = c ∧ e.central_directory_size = d ∧
            e.entry_count = n
        then .ok () else .error .invalidFormat) ∧
    (∀ (rd : ReaderState) (endr : EndRecord) (rest : List Nat),
      64 ≤ rd.file.length →
      EndRecord.readFrom (rd.file.drop (rd.file.length - 64)) = .ok (endr, rest) →
      validateEndRecord rd = endr.validateAgainstHeader rd.header.version_major
        rd.header.version_minor rd.header.central_directory_offset
        rd.header.central_directory_size rd.header.entry_count) ∧
    (∀ (P : Prims) (rd : ReaderState) (er : Err),
      rd.encryption_mode ≠ .archive → validateEndRecord rd = .error er →
      initReader P rd = .error er) := by
  refine ⟨?_, ?_, ?_, ?_⟩
  · intro P st nonceA file h hcnt
    obtain ⟨mid, hfile⟩ := finalizeArchive_shape h
    refine ⟨?_, endRecord_writeTo_length _, ?_, rfl, rfl, rfl, rfl, rfl, ?_⟩
    · have hl : (((finalHeader st).writeTo ++ mid) ++
          (finalEndRecord st).writeTo).length - 64 =
          ((finalHeader st).writeTo ++ mid).length := by
        simp only [List.length_append, endRecord_writeTo_length]
        omega
      rw [hfile, hl, List.drop_left]
    · rw [EndRecord.writeTo, END_RECORD_SIGNATURE]
      rfl
    · show st.entries.length * 320 = st.entries.length % 2 ^ 32 * 320
      rw [Nat.mod_eq_of_lt hcnt]
  · intro e a b c d n
    rw [EndRecord.validateAgainstHeader]
    by_cases h1 : e.version_major = a <;> by_cases h2 : e.version_minor = b <;>
      by_cases h3 : e.central_directory_offset = c <;>
      by_cases h4 : e.central_directory_size = d <;>
      by_cases h5 : e.entry_count = n <;>
      simp [h1, h2, h3, h4, h5]
  · intro rd endr rest hge hrd
    rw [validateEndRecord]
    rw [if_neg (by rw [END_RECORD_SIZE]; omega),
      show (END_RECORD_SIZE : Nat) = 64 from rfl, hrd]
  · intro P rd er hmode hval
    rw [initReader]
    cases hm : rd.encryption_mode with
    | none =>
      dsimp only
      rw [hval]
    | archive => exact absurd hm hmode
    | perFile =>
      dsimp only
      rw [hval]

/-- Witness for C6: the empty writer's archive, a mismatching end record,
and a 64-byte all-zero file whose end record does not parse. -/
theorem c6_end_record_witness :
    (WriterState.create.entries.length < 2 ^ 32 ∧
      ∃ file, finalizeArchive toyPrims WriterState.create [] = .ok file ∧
        file.drop (file.length - 64) = (finalEndRecord WriterState.create).writeTo ∧
        ((finalEndRecord WriterState.create).writeTo).take 4 = END_RECORD_SIGNATURE ∧
        (finalEndRecord WriterState.create).central_directory_size =
          (finalHeader WriterState.create).entry_count * 320) ∧
    ((EndRecord.new 9 9 9 9 9 9).validateAgainstHeader 1 0 64 0 0 =
      .error .invalidFormat) ∧
    (∃ rd : ReaderState,
      64 ≤ rd.file.length ∧
      EndRecord.readFrom (rd.file.drop (rd.file.length - 64)) =
        .ok (EndRecord.new 1 0 64 0 0 0, []) ∧
      validateEndRecord rd = (EndRecord.new 1 0 64 0 0 0).validateAgainstHeader
        rd.header.version_major rd.header.version_minor
        rd.header.central_directory_offset rd.header.central_directory_size
        rd.header.entry_count) ∧
    (∃ rd : ReaderState, rd.encryption_mode ≠ EncryptionMode.archive ∧
      validateEndRecord rd = .error Err.invalidFormat ∧
      initReader toyPrims rd = .error Err.invalidFormat) := by
  have hfin : finalizeArchive toyPrims WriterState.create [] =
      .ok ((finalHeader WriterState.create).writeTo ++
        ((finalEndRecord WriterState.create).writeTo)) := by rfl
  have hrd2 : EndRecord.readFrom
      (((⟨(EndRecord.new 1 0 64 0 0 0).writeTo, FileHeader.new, [], [],
          EncryptionMode.none, none, none⟩ : ReaderState)).file.drop
        ((((⟨(EndRecord.new 1 0 64 0 0 0).writeTo, FileHeader.new, [], [],
          EncryptionMode.none, none, none⟩ : ReaderState)).file).length - 64)) =
      .ok (EndRecord.new 1 0 64 0 0 0, []) := by rfl
  refine ⟨⟨by decide, _, hfin, ?_, ?_, ?_⟩, ?_, ?_, ?_⟩
  · exact (c6_end_record.1 toyPrims WriterState.create [] _ hfin (by decide)).1
  · exact (c6_end_record.1 toyPrims WriterState.create [] _ hfin (by decide)).2.2.1
  · exact (c6_end_record.1 toyPrims WriterState.create [] _ hfin (by decide)).2.2.2.2.2.2.2.2
  · exact (c6_end_record.2.1 (EndRecord.new 9 9 9 9 9 9) 1 0 64 0 0).trans (by rfl)
  · exact ⟨⟨(EndRecord.new 1 0 64 0 0 0).writeTo, FileHeader.new, [], [],
      EncryptionMode.none, none, none⟩, by decide, hrd2,
      c6_end_record.2.2.1 _ (EndRecord.new 1 0 64 0 0 0) [] (by decide) hrd2⟩
  · exact ⟨⟨List.replicate 64 0, FileHeader.new, [], [],
      EncryptionMode.none, none, none⟩, by decide, by rfl,
      c6_end_record.2.2.2 toyPrims _ Err.invalidFormat (by decide) (by rfl)⟩

/-- C9: archive-mode key discipline: opening an archive-encrypted file
without a key makes `initialize` fail with MissingDecryptionKey; supplying a
key whose AEAD decryption rejects the archive ciphertext (any wrong key, by
the AEAD authenticity contract) makes it fail with DecryptionFailed; and
supplying the writing key makes it succeed. -/
theorem c9_archive_key_required {P : Prims} (hP : PrimsOK P) {k k2 : Nat}
    {st : WriterState} {pairs : List (EntryInfo × AddReq)}
    (hw : WriterOK P .archive (some k) st pairs)
    (hgood : ∀ pe ∈ pairs, GoodAdd pe.2)
    (hcnt : st.entries.length < 2 ^ 32)
    (hsz : 64 + st.body.length + 320 * st.entries.length + 64 < 2 ^ 64)
    {nonceA : List Nat} (hnA : nonceA.length = 12)
    (hauth : ∀ n m, P.aeadDec k2 n (P.aeadEnc k n m) = none) :
    ∃ file rd0,
      finalizeArchive P st nonceA = .ok file ∧
      ArchiveReader.open file = .ok rd0 ∧
      rd0.decryption_key = none ∧
      rd0.encryption_mode = .archive ∧
      initReader P rd0 = .error .missingDecryptionKey ∧
      initReader P (rd0.withDecryptionKey k2) = .error .decryptionFailed ∧
      ∃ rd, initReader P (rd0.withDecryptionKey k) = .ok rd := by
  have hp255 : ∀ e ∈ st.entries, e.path.length ≤ 255 := by
    intro e he
    rw [hw.2.2.1] at he
    obtain ⟨pe, hpe, rfl⟩ := List.mem_map.mp he
    obtain ⟨cp, payload, lbs, rest0, hcd, henc, hpath, -⟩ := hw.2.2.2 pe hpe
    rw [hpath]
    exact (hgood pe hpe).pathLen
  obtain ⟨cdBytes, hwcd, hcdlen, hfin⟩ := finalize_archive (P := P) hw.1 hw.2.1 hp255 nonceA
  obtain ⟨cdBytes2, file2, rd, -, hfin2, hopenK, hinitK, -, -, -, -⟩ :=
    pipeline_archive hP hw hgood hcnt hsz hnA
  have hfeq : file2 = (finalHeader st).writeTo ++
      ((nonceA ++ P.aeadEnc k nonceA (st.body ++ cdBytes)) ++
        (finalEndRecord st).writeTo) := Except.ok.inj (hfin2.symm.trans hfin)
  subst hfeq
  have hopen0 : ArchiveReader.open ((finalHeader st).writeTo ++
      ((nonceA ++ P.aeadEnc k nonceA (st.body ++ cdBytes)) ++
        (finalEndRecord st).writeTo)) = .ok
      { file := (finalHeader st).writeTo ++
          ((nonceA ++ P.aeadEnc k nonceA (st.body ++ cdBytes)) ++
            (finalEndRecord st).writeTo)
        header := finalHeader st, entries := [], entry_list := []
        encryption_mode := .archive, decryption_key := none
        decrypted_payload := none } := by
    rw [ArchiveReader.open,
      fileHeader_readFrom_writeTo _ _ (by norm_num [finalHeader, FORMAT_VERSION_MAJOR])
        (by norm_num [finalHeader, FORMAT_VERSION_MINOR])
        (by norm_num [finalHeader]) (by simp only [finalHeader]; omega)
        (by simp only [finalHeader]; omega)
        (by simp only [finalHeader]; exact Nat.mod_lt _ (by norm_num))
        (by norm_num [finalHeader])
        (by simp only [finalHeader]; exact EncryptionMode.toFlags_lt _)
        (by norm_num [finalHeader, FORMAT_VERSION_MAJOR])]
    dsimp only
    rw [FileHeader.validateVersion, if_neg (by norm_num [finalHeader, FORMAT_VERSION_MAJOR])]
    dsimp only
    have hem : (finalHeader st).encryptionMode = .archive := by
      rw [FileHeader.encryptionMode]
      show EncryptionMode.fromFlags (finalHeader st).flags = .archive
      rw [show (finalHeader st).flags = st.encryption_mode.toFlags from rfl, hw.1,
        EncryptionMode.fromFlags_toFlags]
    rw [hem]
  refine ⟨_, _, hfin, hopen0, rfl, rfl, rfl, ?_, ?_⟩
  · have hdec2 : decryptArchivePayload P
        { file := (finalHeader st).writeTo ++
            ((nonceA ++ P.aeadEnc k nonceA (st.body ++ cdBytes)) ++
              (finalEndRecord st).writeTo)
          header := finalHeader st, entries := [], entry_list := []
          encryption_mode := .archive, decryption_key := some k2
          decrypted_payload := none } = .error .decryptionFailed := by
      rw [decryptArchivePayload]
      dsimp only
      have hdrop64 : ((finalHeader st).writeTo ++
          ((nonceA ++ P.aeadEnc k nonceA (st.body ++ cdBytes)) ++
            (finalEndRecord st).writeTo)).drop 64 =
          nonceA ++ (P.aeadEnc k nonceA (st.body ++ cdBytes) ++
            (finalEndRecord st).writeTo) := by
        rw [headerW_drop64]
        simp [List.append_assoc]
      have hesz : ((finalHeader st).writeTo ++
          ((nonceA ++ P.aeadEnc k nonceA (st.body ++ cdBytes)) ++
            (finalEndRecord st).writeTo)).length - 64 - END_RECORD_SIZE - 12 =
          (P.aeadEnc k nonceA (st.body ++ cdBytes)).length := by
        simp only [List.length_append, fileHeader_writeTo_length, endRecord_writeTo_length,
          hnA, END_RECORD_SIZE]
        omega
      rw [hdrop64, pthen_ok (pBytes_append hnA)]
      rw [pthen_ok (p := pBytes _) (by rw [hesz]; exact pBytes_append rfl)]
      rw [ppure]
      dsimp only
      rw [hauth]
    have hwd2 : ((⟨(finalHeader st).writeTo ++
          ((nonceA ++ P.aeadEnc k nonceA (st.body ++ cdBytes)) ++
            (finalEndRecord st).writeTo),
          finalHeader st, [], [], .archive, none, none⟩ :
        ReaderState)).withDecryptionKey k2 =
        (⟨(finalHeader st).writeTo ++
          ((nonceA ++ P.aeadEnc k nonceA (st.body ++ cdBytes)) ++
            (finalEndRecord st).writeTo),
          finalHeader st, [], [], .archive, some k2, none⟩ : ReaderState) := rfl
    rw [hwd2, initReader]
    dsimp only
    rw [hdec2]
  · exact ⟨rd, hinitK⟩

/-- Witness for C9: the empty archive-encrypted writer under the toy
primitives, written with key 1 and probed with key 2. -/
theorem c9_archive_key_required_witness :
    ∃ file rd0,
      finalizeArchive toyPrims (WriterState.create.withArchiveEncryption 1)
        (List.replicate 12 0) = .ok file ∧
      ArchiveReader.open file = .ok rd0 ∧
      rd0.decryption_key = none ∧
      rd0.encryption_mode = .archive ∧
      initReader toyPrims rd0 = .error .missingDecryptionKey ∧
      initReader toyPrims (rd0.withDecryptionKey 2) = .error .decryptionFailed ∧
      ∃ rd, initReader toyPrims (rd0.withDecryptionKey 1) = .ok rd :=
  c9_archive_key_required toyPrims_ok
    (⟨rfl, rfl, rfl, by simp⟩ : WriterOK toyPrims .archive (some 1)
      (WriterState.create.withArchiveEncryption 1) [])
    (by simp) (by decide) (by decide) (by decide)
    (toyPrims_aead_reject 1 2 (by norm_num) (by norm_num) (by decide))

/-- C10: duplicate normalized paths are accepted: both adds succeed, the
finalized header counts both occurrences, but after `initialize` the
reader's map keeps only the last-inserted record, `read_file` on the path
returns the last-added bytes, and `entry_count` reports the number of
distinct paths (1, smaller than the header's 2). -/
theorem c10_duplicate_paths {P : Prims} (hP : PrimsOK P) {a1 a2 : AddReq}
    (hg1 : GoodAdd a1) (hg2 : GoodAdd a2)
    (hpeq : normalizePath a1.path = normalizePath a2.path)
    (hsz : ∀ st, runAdds P WriterState.create [a1, a2] = .ok st →
      64 + st.body.length + 320 * 2 + 64 < 2 ^ 64)
    (nonceA : List Nat) :
    ∃ st file rdPre rd,
      runAdds P WriterState.create [a1, a2] = .ok st ∧
      st.entries.length = 2 ∧
      (finalHeader st).entry_count = 2 ∧
      finalizeArchive P st nonceA = .ok file ∧
      openWithKey file none = .ok rdPre ∧
      initReader P rdPre = .ok rd ∧
      rd.entries = st.entries ∧
      rd.entryCount = 1 ∧
      readFileEntry P rd (normalizePath a2.path) = .ok a2.data := by
  have hgood : ∀ a ∈ [a1, a2], GoodAdd a := by
    intro a ha
    rcases List.mem_cons.mp ha with rfl | ha
    · exact hg1
    · rcases List.mem_singleton.mp ha with rfl
      exact hg2
  have hw0 : WriterOK P .none none WriterState.create [] := ⟨rfl, rfl, rfl, by simp⟩
  obtain ⟨st, pairs, hrun, hwok, hmap⟩ := runAdds_ok (by simp) hgood hw0
  rw [List.nil_append] at hwok
  have hplen : pairs.length = 2 := by
    have h := congrArg List.length hmap
    simpa using h
  obtain ⟨pe1, pe2, rfl⟩ := List.length_eq_two.mp hplen
  obtain ⟨ha1, ha2⟩ : pe1.2 = a1 ∧ pe2.2 = a2 := by simpa using hmap
  subst ha1
  subst ha2
  have hent2 : st.entries = [pe1.1, pe2.1] := by
    rw [hwok.2.2.1]
    rfl
  have hadd1 := hwok.2.2.2 pe1 (by simp)
  have hadd2 := hwok.2.2.2 pe2 (by simp)
  have hp1 : pe1.1.path = normalizePath pe2.2.path := by
    obtain ⟨cp, payload, lbs, rest0, hcd, henc, hpath, -⟩ := hadd1
    rw [hpath, hpeq]
  have hp2 : pe2.1.path = normalizePath pe2.2.path := by
    obtain ⟨cp, payload, lbs, rest0, hcd, henc, hpath, -⟩ := hadd2
    rw [hpath]
  have hcnt' : st.entries.length < 2 ^ 32 := by rw [hent2]; norm_num
  have hsz' := hsz st hrun
  have hsz'' : 64 + st.body.length + 320 * st.entries.length + 64 < 2 ^ 64 := by
    rw [hent2]
    simpa using hsz'
  have hb64 : st.body.length < 2 ^ 64 := by omega
  have hgoodp : ∀ pe ∈ [pe1, pe2], GoodAdd pe.2 := by
    intro pe hpe
    rcases List.mem_cons.mp hpe with rfl | hpe
    · exact hg1
    · rcases List.mem_singleton.mp hpe with rfl
      exact hg2
  obtain ⟨cdBytes, file, rd, hwcd, hfin, hopen, hinit, hrdent, hrdmode, hrdkey,
    hrdpayload, hrdfile, hfdrop⟩ :=
    pipeline_plain hP hwok (Or.inl rfl) hgoodp hcnt' hsz'' nonceA
  refine ⟨st, file, _, rd, hrun, by rw [hent2]; rfl, ?_, hfin, hopen, hinit, hrdent,
    ?_, ?_⟩
  · show st.entries.length % 2 ^ 32 = 2
    rw [hent2]
    norm_num
  · rw [ReaderState.entryCount, distinctPathCount, hrdent, hent2]
    rw [List.map_cons, List.map_cons, List.map_nil, hp1, hp2]
    rw [List.dedup_cons_of_mem (by simp), List.dedup_cons_of_not_mem (by simp),
      List.dedup_nil]
    rfl
  · have hlook : cdLookup rd.entries (normalizePath pe2.2.path) = some pe2.1 := by
      rw [hrdent, hent2, cdLookup]
      rw [List.filter_cons, if_pos (by simp [hp1]), List.filter_cons,
        if_pos (by simp [hp2]), List.filter_nil]
      rfl
    have h := readFileEntry_ok_plain hP (Or.inl rfl) hrdmode hrdkey
      (hgoodp pe2 (by simp)) hadd2 hb64 (by rw [hrdfile, hfdrop]) hlook
    rw [hp2] at h
    exact h

/-- Witness for C10: two entries with the same path "a" and different
bytes, the toy primitives, no encryption. -/
theorem c10_duplicate_paths_witness :
    normalizePath (AddReq.path (⟨[97], [1], .none, 0, List.replicate 12 0⟩ : AddReq)) =
      normalizePath (AddReq.path (⟨[97], [2, 3], .none, 0, List.replicate 12 0⟩ : AddReq)) ∧
    ∃ st file rdPre rd,
      runAdds toyPrims WriterState.create
        [(⟨[97], [1], .none, 0, List.replicate 12 0⟩ : AddReq),
          (⟨[97], [2, 3], .none, 0, List.replicate 12 0⟩ : AddReq)] = .ok st ∧
      st.entries.length = 2 ∧
      (finalHeader st).entry_count = 2 ∧
      finalizeArchive toyPrims st (List.replicate 12 0) = .ok file ∧
      openWithKey file none = .ok rdPre ∧
      initReader toyPrims rdPre = .ok rd ∧
      rd.entries = st.entries ∧
      rd.entryCount = 1 ∧
      readFileEntry toyPrims rd
        (normalizePath (AddReq.path (⟨[97], [2, 3], .none, 0,
          List.replicate 12 0⟩ : AddReq))) =
        .ok (AddReq.data (⟨[97], [2, 3], .none, 0, List.replicate 12 0⟩ : AddReq)) :=
  ⟨rfl,
    c10_duplicate_paths toyPrims_ok
      (⟨by decide, by decide, by decide, by decide, by decide⟩ :
        GoodAdd (⟨[97], [1], .none, 0, List.replicate 12 0⟩ : AddReq))
      (⟨by decide, by decide, by decide, by decide, by decide⟩ :
        GoodAdd (⟨[97], [2, 3], .none, 0, List.replicate 12 0⟩ : AddReq))
      rfl
      (by
        intro st hst
        have hmatch : (match runAdds toyPrims WriterState.create
            [(⟨[97], [1], .none, 0, List.replicate 12 0⟩ : AddReq),
              (⟨[97], [2, 3], .none, 0, List.replicate 12 0⟩ : AddReq)] with
          | Except.ok st2 => decide (64 + st2.body.length + 320 * 2 + 64 < 2 ^ 64)
          | Except.error _ => true) = true := by decide
        rw [hst] at hmatch
        simp only [decide_eq_true_eq] at hmatch
        simpa using hmatch)
      (List.replicate 12 0)⟩

end Engram
